import Mathlib

/-!
Verification of the path-search comparison engine (`src/app.py`).

The program compares five graph-traversal algorithms (A*, Dijkstra, greedy
best-first, breadth-first, depth-first) over a weighted geographic graph and
reports, per algorithm, the found path, a great-circle total distance, a
wall-clock duration and a visited-node count, then selects a winning path and
a fastest algorithm.

The embedding is parametric in the scalar field `K` (the Python program uses
floating-point numbers, modelled here as an arbitrary linear ordered field,
instantiated at `ℝ` for the real great-circle metric and at `ℚ` for concrete
executable checks) and in the coordinate-distance function `gc` (the osmnx
library function `ox.distance.great_circle`, embedded exactly as
`great_circle` below and passed as a parameter so that solvers stay
executable).  Loops carry explicit fuel; `PErr.fuel` marks a loop that did not
finish within its fuel (Python would still be running), and `PErr.keyErr n`
marks the `KeyError` Python raises when node `n` is looked up but absent.
-/

namespace PathSim

abbrev NodeId := Nat

/-- Per-node record of the graph: `y` is the latitude, `x` the longitude
(attribute names follow the osmnx node attributes used by the source). -/
structure NodeData (K : Type) where
  y : K
  x : K
deriving DecidableEq, Repr

/-- The weighted directed multigraph: node list (insertion order, as in the
networkx node view) and directed edges `(u, v, length)` where the length
attribute may be absent (the source then defaults it to 1). -/
structure Graph (K : Type) where
  nodes : List (NodeId × NodeData K)
  edges : List (NodeId × NodeId × Option K)
deriving DecidableEq, Repr

/-- Failure modes of the embedded program: `keyErr n` is Python's `KeyError`
on a missing node `n`; `fuel` marks loop fuel exhaustion (the Python loop
would still be running). -/
inductive PErr where
  | keyErr : NodeId → PErr
  | fuel : PErr
deriving DecidableEq, Repr

deriving instance DecidableEq for Except

/-- A solver's return value `(path, distance, visited-node order)`. -/
abbrev SolveOut (K : Type) := List NodeId × K × List NodeId

def nodeIds {K : Type} (g : Graph K) : List NodeId := g.nodes.map (·.1)

/-- Python dict lookup as first-hit scan of an association list. -/
def mapGet? {V : Type} (m : List (NodeId × V)) (k : NodeId) : Option V :=
  match m with
  | [] => none
  | p :: rest => if p.1 = k then some p.2 else mapGet? rest k

/-- `graph.nodes[n]`: first matching entry, `KeyError` when absent. -/
def getData {K : Type} (g : Graph K) (n : NodeId) : Except PErr (NodeData K) :=
  match mapGet? g.nodes n with
  | some d => .ok d
  | none => .error (.keyErr n)

/-- `graph.neighbors(n)`: successors in edge-insertion order, each listed once
(networkx adjacency is a dict keyed by neighbor), `KeyError` when `n` is not a
node of the graph. -/
def firstDedup (seen : List NodeId) : List NodeId → List NodeId
  | [] => []
  | x :: xs => if x ∈ seen then firstDedup seen xs else x :: firstDedup (x :: seen) xs

/-- Targets of the edges leaving `n`, in edge-insertion order. -/
def outTargets {K : Type} (es : List (NodeId × NodeId × Option K)) (n : NodeId) :
    List NodeId :=
  match es with
  | [] => []
  | e :: rest => if e.1 = n then e.2.1 :: outTargets rest n else outTargets rest n

def neighborsList {K : Type} (g : Graph K) (n : NodeId) : List NodeId :=
  firstDedup [] (outTargets g.edges n)

def neighbors {K : Type} (g : Graph K) (n : NodeId) : Except PErr (List NodeId) :=
  if n ∈ nodeIds g then .ok (neighborsList g n) else .error (.keyErr n)

/-- The length attribute of the first inserted `u → v` edge (`some none` when
the edge exists without the attribute, `none` when no such edge exists). -/
def lenOf {K : Type} (es : List (NodeId × NodeId × Option K)) (u v : NodeId) :
    Option (Option K) :=
  match es with
  | [] => none
  | e :: rest => if e.1 = u ∧ e.2.1 = v then some e.2.2 else lenOf rest u v

/-- `graph.edges[u, v, 0].get('length', 1)`: the length of the first inserted
`u → v` edge, defaulting to 1 when the attribute is absent. -/
def edgeLen {K : Type} [LinearOrderedField K] (g : Graph K) (u v : NodeId) : K :=
  match lenOf g.edges u v with
  | some l => l.getD 1
  | none => 1

/-- `d[k] = v` on a Python dict (front insert, lookup takes the first hit, so
this is overwrite semantics). -/
def mapSet {V : Type} (m : List (NodeId × V)) (k : NodeId) (v : V) : List (NodeId × V) :=
  (k, v) :: m

/-- Python set: membership plus add. -/
def setAdd (l : List NodeId) (x : NodeId) : List NodeId :=
  if x ∈ l then l else l ++ [x]

/-- `t < m.get(k, float('inf'))`: absent key means infinity, so the test holds. -/
def ltOpt {K : Type} [LinearOrderedField K] (t : K) : Option K → Prop
  | none => True
  | some d => t < d

instance {K : Type} [LinearOrderedField K] (t : K) :
    (o : Option K) → Decidable (ltOpt t o)
  | none => isTrue trivial
  | some d => inferInstanceAs (Decidable (t < d))

/-- `d > m.get(k, float('inf'))`: the stale-entry test of `dijkstra_solve`;
an absent key means infinity and the test fails. -/
def staleOpt {K : Type} [LinearOrderedField K] (d : K) : Option K → Prop
  | none => False
  | some dc => dc < d

instance {K : Type} [LinearOrderedField K] (d : K) :
    (o : Option K) → Decidable (staleOpt d o)
  | none => isFalse id
  | some dc => inferInstanceAs (Decidable (dc < d))

/-- Lexicographic strict order on heap entries `(score, node)`, matching
Python tuple comparison in `heapq`. -/
def lexLt {K : Type} [LinearOrderedField K] (a b : K × NodeId) : Prop :=
  a.1 < b.1 ∨ (a.1 = b.1 ∧ a.2 < b.2)

instance {K : Type} [LinearOrderedField K] (a b : K × NodeId) : Decidable (lexLt a b) :=
  inferInstanceAs (Decidable (_ ∨ _))

/-- `heapq.heappush`: the heap is observationally a multiset, so pushing is
`cons`. -/
def heappush {K : Type} (pq : List (K × NodeId)) (e : K × NodeId) : List (K × NodeId) :=
  e :: pq

/-- `heapq.heappop`: removes and returns the least entry under tuple order
(entries equal as tuples are interchangeable). -/
def popMin {K : Type} [LinearOrderedField K] :
    List (K × NodeId) → Option ((K × NodeId) × List (K × NodeId))
  | [] => none
  | x :: xs =>
    match popMin xs with
    | none => some (x, [])
    | some (m, rest) => if lexLt m x then some (m, x :: rest) else some (x, xs)

/-- The `while current in came_from` walk of `reconstruct_path`, building the
backward node list; `none` when the fuel runs out (Python would loop forever
on a cyclic predecessor map). -/
def rpLoop (cf : List (NodeId × NodeId)) : Nat → NodeId → List NodeId → Option (List NodeId)
  | fuel, current, acc =>
    match mapGet? cf current with
    | none => some acc
    | some p =>
      match fuel with
      | 0 => none
      | f + 1 => rpLoop cf f p (acc ++ [p])

/-- `reconstruct_path(came_from, current)`: walk predecessor links backward
from `current`, then reverse.  Fuel `cf.length + 1` succeeds exactly when the
walk terminates (a longer walk would repeat an entry, hence cycle). -/
def reconstruct_path (cf : List (NodeId × NodeId)) (current : NodeId) : Option (List NodeId) :=
  (rpLoop cf (cf.length + 1) current [current]).map List.reverse

/-- Distance of one consecutive pair: `great_circle` of the two nodes'
coordinates, with the node lookups Python performs (left to right). -/
def nodeDist {K : Type} (gc : K → K → K → K → K) (g : Graph K) (u v : NodeId) :
    Except PErr K := do
  let a ← getData g u
  let b ← getData g v
  pure (gc a.y a.x b.y b.x)

def calcPairs {K : Type} [LinearOrderedField K] (gc : K → K → K → K → K) (g : Graph K) :
    List (NodeId × NodeId) → Except PErr K
  | [] => .ok 0
  | (u, v) :: rest => do
    let d ← nodeDist gc g u v
    let s ← calcPairs gc g rest
    pure (d + s)

/-- `calculate_path_distance(graph, path)`: sum of great-circle distances over
consecutive pairs `zip(path[:-1], path[1:])`. -/
def calculate_path_distance {K : Type} [LinearOrderedField K] (gc : K → K → K → K → K)
    (g : Graph K) (path : List NodeId) : Except PErr K :=
  calcPairs gc g (path.zip path.tail)

/-- The `heuristic(u, v)` closure shared by `a_star_solve` and
`greedy_bfs_solve`. -/
def heuristic {K : Type} (gc : K → K → K → K → K) (g : Graph K) (u v : NodeId) :
    Except PErr K :=
  nodeDist gc g u v

/-- Goal branch shared by all solvers: reconstruct the path and price it. -/
def finishAt {K : Type} [LinearOrderedField K] (gc : K → K → K → K → K) (g : Graph K)
    (cf : List (NodeId × NodeId)) (current : NodeId) (vis : List NodeId) :
    Except PErr (SolveOut K) :=
  match reconstruct_path cf current with
  | none => .error .fuel
  | some path => do
    let d ← calculate_path_distance gc g path
    .ok (path, d, vis)

/-- The neighbor loop of `a_star_solve` (relaxation with g-scores and
f-score = tentative g + heuristic). -/
def aStarRelax {K : Type} [LinearOrderedField K] (gc : K → K → K → K → K) (g : Graph K)
    (endN current : NodeId) :
    List NodeId → List (K × NodeId) → List (NodeId × K) → List (NodeId × NodeId) →
    Except PErr (List (K × NodeId) × List (NodeId × K) × List (NodeId × NodeId))
  | [], pq, gS, cf => .ok (pq, gS, cf)
  | n :: ns, pq, gS, cf =>
    match mapGet? gS current with
    | none => aStarRelax gc g endN current ns pq gS cf
    | some gcur =>
      let t := gcur + edgeLen g current n
      if ltOpt t (mapGet? gS n) then do
        let cf' := mapSet cf n current
        let gS' := mapSet gS n t
        let h ← heuristic gc g n endN
        aStarRelax gc g endN current ns (heappush pq (t + h, n)) gS' cf'
      else aStarRelax gc g endN current ns pq gS cf

/-- The `while pq` loop of `a_star_solve`. -/
def aStarLoop {K : Type} [LinearOrderedField K] (gc : K → K → K → K → K) (g : Graph K)
    (endN : NodeId) :
    Nat → List (K × NodeId) → List (NodeId × K) → List (NodeId × NodeId) → List NodeId →
    Except PErr (SolveOut K)
  | 0, _, _, _, _ => .error .fuel
  | fuel + 1, pq, gS, cf, vis =>
    match popMin pq with
    | none => .ok ([], 0, vis)
    | some ((_, current), pq') =>
      if current ∈ vis then aStarLoop gc g endN fuel pq' gS cf vis
      else
        let vis' := vis ++ [current]
        if current = endN then finishAt gc g cf current vis'
        else do
          let ns ← neighbors g current
          let (pq'', gS', cf') ← aStarRelax gc g endN current ns pq' gS cf
          aStarLoop gc g endN fuel pq'' gS' cf' vis'

/-- `a_star_solve(graph, start_node, end_node)`. -/
def a_star_solve {K : Type} [LinearOrderedField K] (gc : K → K → K → K → K) (g : Graph K)
    (s e : NodeId) (fuel : Nat) : Except PErr (SolveOut K) := do
  let h ← heuristic gc g s e
  aStarLoop gc g e fuel [(h, s)] [(s, 0)] [] []

/-- The neighbor loop of `dijkstra_solve` (relaxation from the popped
distance `d`). -/
def dijRelax {K : Type} [LinearOrderedField K] (g : Graph K) (current : NodeId) (d : K) :
    List NodeId → List (K × NodeId) → List (NodeId × K) → List (NodeId × NodeId) →
    List (K × NodeId) × List (NodeId × K) × List (NodeId × NodeId)
  | [], pq, dM, cf => (pq, dM, cf)
  | n :: ns, pq, dM, cf =>
    let nd := d + edgeLen g current n
    if ltOpt nd (mapGet? dM n) then
      dijRelax g current d ns (heappush pq (nd, n)) (mapSet dM n nd) (mapSet cf n current)
    else dijRelax g current d ns pq dM cf

/-- The `while pq` loop of `dijkstra_solve`. -/
def dijkstraLoop {K : Type} [LinearOrderedField K] (gc : K → K → K → K → K) (g : Graph K)
    (endN : NodeId) :
    Nat → List (K × NodeId) → List (NodeId × NodeId) → List (NodeId × K) → List NodeId →
    Except PErr (SolveOut K)
  | 0, _, _, _, _ => .error .fuel
  | fuel + 1, pq, cf, dM, vis =>
    match popMin pq with
    | none => .ok ([], 0, vis)
    | some ((d, current), pq') =>
      if staleOpt d (mapGet? dM current) then dijkstraLoop gc g endN fuel pq' cf dM vis
      else
        let vis' := vis ++ [current]
        if current = endN then finishAt gc g cf current vis'
        else do
          let ns ← neighbors g current
          let (pq'', dM', cf') := dijRelax g current d ns pq' dM cf
          dijkstraLoop gc g endN fuel pq'' cf' dM' vis'

/-- `dijkstra_solve(graph, start_node, end_node)`. -/
def dijkstra_solve {K : Type} [LinearOrderedField K] (gc : K → K → K → K → K) (g : Graph K)
    (s e : NodeId) (fuel : Nat) : Except PErr (SolveOut K) :=
  dijkstraLoop gc g e fuel [(0, s)] [] [(s, 0)] []

/-- The neighbor loop of `bfs_solve`: mark visited on first enqueue. -/
def bfsEnqueue (current : NodeId) :
    List NodeId → List NodeId → List NodeId → List (NodeId × NodeId) →
    List NodeId × List NodeId × List (NodeId × NodeId)
  | [], q, vs, cf => (q, vs, cf)
  | n :: ns, q, vs, cf =>
    if n ∈ vs then bfsEnqueue current ns q vs cf
    else bfsEnqueue current ns (q ++ [n]) (vs ++ [n]) (mapSet cf n current)

/-- The `while queue` loop of `bfs_solve`. -/
def bfsLoop {K : Type} [LinearOrderedField K] (gc : K → K → K → K → K) (g : Graph K)
    (endN : NodeId) :
    Nat → List NodeId → List NodeId → List (NodeId × NodeId) → List NodeId →
    Except PErr (SolveOut K)
  | 0, _, _, _, _ => .error .fuel
  | fuel + 1, q, vs, cf, order =>
    match q with
    | [] => .ok ([], 0, order)
    | current :: rest =>
      let order' := order ++ [current]
      if current = endN then finishAt gc g cf current order'
      else do
        let ns ← neighbors g current
        let (q', vs', cf') := bfsEnqueue current ns rest vs cf
        bfsLoop gc g endN fuel q' vs' cf' order'

/-- `bfs_solve(graph, start_node, end_node)`. -/
def bfs_solve {K : Type} [LinearOrderedField K] (gc : K → K → K → K → K) (g : Graph K)
    (s e : NodeId) (fuel : Nat) : Except PErr (SolveOut K) :=
  bfsLoop gc g e fuel [s] [s] [] []

/-- The neighbor loop of `dfs_solve`: iterate `reversed(neighbors)` pushing
each unvisited neighbor onto the stack (stack top is the list head). -/
def dfsPushList (current : NodeId) (vs : List NodeId) :
    List NodeId → List NodeId → List (NodeId × NodeId) →
    List NodeId × List (NodeId × NodeId)
  | [], st, cf => (st, cf)
  | n :: ns, st, cf =>
    if n ∈ vs then dfsPushList current vs ns st cf
    else dfsPushList current vs ns (n :: st) (mapSet cf n current)

/-- The `while stack` loop of `dfs_solve`. -/
def dfsLoop {K : Type} [LinearOrderedField K] (gc : K → K → K → K → K) (g : Graph K)
    (endN : NodeId) :
    Nat → List NodeId → List NodeId → List (NodeId × NodeId) → List NodeId →
    Except PErr (SolveOut K)
  | 0, _, _, _, _ => .error .fuel
  | fuel + 1, st, vs, cf, order =>
    match st with
    | [] => .ok ([], 0, order)
    | current :: rest =>
      if current ∈ vs then dfsLoop gc g endN fuel rest vs cf order
      else
        let vs' := vs ++ [current]
        let order' := order ++ [current]
        if current = endN then finishAt gc g cf current order'
        else do
          let ns ← neighbors g current
          let (st', cf') := dfsPushList current vs' ns.reverse rest cf
          dfsLoop gc g endN fuel st' vs' cf' order'

/-- `dfs_solve(graph, start_node, end_node)`. -/
def dfs_solve {K : Type} [LinearOrderedField K] (gc : K → K → K → K → K) (g : Graph K)
    (s e : NodeId) (fuel : Nat) : Except PErr (SolveOut K) :=
  dfsLoop gc g e fuel [s] [] [] []

/-- The neighbor loop of `greedy_bfs_solve`: mark visited on first enqueue,
priority is the heuristic alone. -/
def greedyRelax {K : Type} [LinearOrderedField K] (gc : K → K → K → K → K) (g : Graph K)
    (endN current : NodeId) :
    List NodeId → List (K × NodeId) → List NodeId → List (NodeId × NodeId) →
    Except PErr (List (K × NodeId) × List NodeId × List (NodeId × NodeId))
  | [], pq, vs, cf => .ok (pq, vs, cf)
  | n :: ns, pq, vs, cf =>
    if n ∈ vs then greedyRelax gc g endN current ns pq vs cf
    else do
      let vs' := vs ++ [n]
      let cf' := mapSet cf n current
      let pr ← heuristic gc g n endN
      greedyRelax gc g endN current ns (heappush pq (pr, n)) vs' cf'

/-- The `while pq` loop of `greedy_bfs_solve`; the skip test uses the visited
ORDER list, while the enqueue guard uses the visited SET. -/
def greedyLoop {K : Type} [LinearOrderedField K] (gc : K → K → K → K → K) (g : Graph K)
    (endN : NodeId) :
    Nat → List (K × NodeId) → List (NodeId × NodeId) → List NodeId → List NodeId →
    Except PErr (SolveOut K)
  | 0, _, _, _, _ => .error .fuel
  | fuel + 1, pq, cf, vs, order =>
    match popMin pq with
    | none => .ok ([], 0, order)
    | some ((_, current), pq') =>
      if current ∈ order then greedyLoop gc g endN fuel pq' cf vs order
      else
        let order' := order ++ [current]
        if current = endN then finishAt gc g cf current order'
        else do
          let ns ← neighbors g current
          let (pq'', vs', cf') ← greedyRelax gc g endN current ns pq' vs cf
          greedyLoop gc g endN fuel pq'' cf' vs' order'

/-- `greedy_bfs_solve(graph, start_node, end_node)`. -/
def greedy_bfs_solve {K : Type} [LinearOrderedField K] (gc : K → K → K → K → K)
    (g : Graph K) (s e : NodeId) (fuel : Nat) : Except PErr (SolveOut K) := do
  let h ← heuristic gc g s e
  greedyLoop gc g e fuel [(h, s)] [] [s] []

/-- Python `round(x, 2)`: round half to even at two decimals. -/
def roundHalfEven {K : Type} [LinearOrderedField K] [FloorRing K] (x : K) : ℤ :=
  if x - (⌊x⌋ : K) < 1 / 2 then ⌊x⌋
  else if (1 : K) / 2 < x - (⌊x⌋ : K) then ⌊x⌋ + 1
  else if 2 ∣ ⌊x⌋ then ⌊x⌋ else ⌊x⌋ + 1

def roundTo2 {K : Type} [LinearOrderedField K] [FloorRing K] (x : K) : K :=
  ((roundHalfEven (x * 100) : ℤ) : K) / 100

/-- One entry of the `results` list built by `compare_routes`:
`{'algo': name, 'distance': round(distance/1000, 2),
'time': round((end-start)*1000, 2), 'visited': len(visited_nodes)}`. -/
structure AlgoResult (K : Type) where
  algo : String
  distance : K
  time : K
  visited : Nat
deriving DecidableEq, Repr

/-- The `animation_data` dict, built only when a winning path exists. -/
structure AnimData (K : Type) where
  bounds : (K × K) × (K × K)
  visitedCoords : List (K × K)
  pathCoords : List (K × K)
deriving DecidableEq, Repr

/-- The JSON payload of a successful `/api/compare_routes` response;
`animation = none` models the empty `animation_data` dict. -/
structure Report (K : Type) where
  results : List (AlgoResult K)
  animation : Option (AnimData K)
  fastestAlgo : Option String
deriving DecidableEq, Repr

/-- The loop state `(results, best_path, min_distance, animation_visited_nodes)`
of `compare_routes`; `minDistance = none` models `float('inf')`. -/
structure SelAcc (K : Type) where
  results : List (AlgoResult K)
  bestPath : List NodeId
  minDistance : Option K
  animVisited : List NodeId
deriving DecidableEq, Repr

/-- The algorithms allowed to supply the winning path,
`['A* (A-Star)', 'Dijkstra', 'BFS']` in the source. -/
def trustedNames : List String := ["A* (A-Star)", "Dijkstra", "BFS"]

/-- One iteration of the solver loop of `compare_routes`, fed with the solver
name, its output and its measured duration `end_time - start_time`. -/
def selectStep {K : Type} [LinearOrderedField K] [FloorRing K] (acc : SelAcc K)
    (entry : String × SolveOut K × K) : SelAcc K :=
  match entry with
  | (name, (path, dist, vis), dur) =>
    match path with
    | [] => acc
    | _ :: _ =>
      let acc' := { acc with
        results := acc.results ++
          [⟨name, roundTo2 (dist / 1000), roundTo2 (dur * 1000), vis.length⟩] }
      if name ∈ trustedNames ∧ ltOpt dist acc.minDistance ∧ 0 < dist then
        { acc' with bestPath := path, minDistance := some dist, animVisited := vis }
      else acc'

def selectLoop {K : Type} [LinearOrderedField K] [FloorRing K] (acc : SelAcc K) :
    List (String × SolveOut K × K) → SelAcc K
  | [] => acc
  | t :: ts => selectLoop (selectStep acc t) ts

/-- Run the five solvers in dict-insertion order, with the duration oracle
`tm` supplying the wall-clock measurement of the i-th solver.  Any exception
aborts the whole comparison, as in the source's `try` block. -/
def runAll {K : Type} [LinearOrderedField K] (gc : K → K → K → K → K) (g : Graph K)
    (s e : NodeId) (fuel : Nat) (tm : Nat → K) :
    Except PErr (List (String × SolveOut K × K)) := do
  let o1 ← a_star_solve gc g s e fuel
  let o2 ← dijkstra_solve gc g s e fuel
  let o3 ← greedy_bfs_solve gc g s e fuel
  let o4 ← bfs_solve gc g s e fuel
  let o5 ← dfs_solve gc g s e fuel
  .ok [("A* (A-Star)", o1, tm 0), ("Dijkstra", o2, tm 1), ("Greedy BFS", o3, tm 2),
       ("BFS", o4, tm 3), ("DFS", o5, tm 4)]

/-- Python `min` over a nonempty list (first minimal element wins ties). -/
def minList {K : Type} [LinearOrderedField K] : List K → Option K
  | [] => none
  | x :: xs => some (xs.foldl min x)

def maxList {K : Type} [LinearOrderedField K] : List K → Option K
  | [] => none
  | x :: xs => some (xs.foldl max x)

/-- `min(results, key=lambda x: x['time'])['algo'] if results else None`. -/
def fastestOf {K : Type} [LinearOrderedField K] : List (AlgoResult K) → Option String
  | [] => none
  | r :: rs => some ((rs.foldl (fun a y => if y.time < a.time then y else a) r).algo)

/-- `[local_graph.nodes[node]['y'], local_graph.nodes[node]['x']]`; the
default is never reached on the node ids that occur in a run. -/
def coordPair {K : Type} [LinearOrderedField K] (g : Graph K) (n : NodeId) : K × K :=
  match getData g n with
  | .ok d => (d.y, d.x)
  | .error _ => (0, 0)

/-- Lines 159-160 of the source: coordinate extrema over the full node set,
`[[min_lon, max_lon], [min_lat, max_lat]]`. -/
def extremaBounds {K : Type} [LinearOrderedField K] (g : Graph K) : (K × K) × (K × K) :=
  let lons := g.nodes.map (fun p => p.2.x)
  let lats := g.nodes.map (fun p => p.2.y)
  (((minList lons).getD 0, (maxList lons).getD 0),
   ((minList lats).getD 0, (maxList lats).getD 0))

/-- The body of the `try` block of `compare_routes` from the solver loop on:
run all solvers, build the results list and the winning path, derive the
fastest algorithm and (only when a winning path exists) the animation data. -/
def compare_core {K : Type} [LinearOrderedField K] [FloorRing K] (gc : K → K → K → K → K)
    (g : Graph K) (s e : NodeId) (fuel : Nat) (tm : Nat → K) :
    Except PErr (Report K) := do
  let triples ← runAll gc g s e fuel tm
  let acc := selectLoop ⟨[], [], none, []⟩ triples
  let anim : Option (AnimData K) :=
    match acc.bestPath with
    | [] => none
    | _ :: _ =>
      some ⟨extremaBounds g, acc.animVisited.map (coordPair g),
            acc.bestPath.map (coordPair g)⟩
  .ok ⟨acc.results, anim, fastestOf acc.results⟩

/-- The error text of the source's `except` handler (without the interpolated
exception). -/
def locationErrorText : String :=
  "Could not find one or both locations in the Mumbai map. Please try again. Error: "

def errName : PErr → String
  | .keyErr n => toString n
  | .fuel => "nontermination"

/-- `compare_routes` at the request boundary: a successful comparison returns
the report; any exception is caught and surfaced as the generic location
error message with the original exception appended. -/
def compare_routes {K : Type} [LinearOrderedField K] [FloorRing K] (gc : K → K → K → K → K)
    (g : Graph K) (s e : NodeId) (fuel : Nat) (tm : Nat → K) :
    Except String (Report K) :=
  match compare_core gc g s e fuel tm with
  | .ok r => .ok r
  | .error pe => .error (locationErrorText ++ errName pe)

/-- `ox.distance.great_circle(lat1, lon1, lat2, lon2)` with the osmnx default
earth radius 6371009 m: haversine distance, angles converted from degrees. -/
noncomputable def great_circle (lat1 lon1 lat2 lon2 : ℝ) : ℝ :=
  let y1 := lat1 * (Real.pi / 180)
  let y2 := lat2 * (Real.pi / 180)
  let dy := y2 - y1
  let dx := lon2 * (Real.pi / 180) - lon1 * (Real.pi / 180)
  let h := Real.sin (dy / 2) ^ 2 + Real.cos y1 * Real.cos y2 * Real.sin (dx / 2) ^ 2
  2 * 6371009 * Real.arcsin (Real.sqrt (min 1 h))

/-- A computable stand-in metric over `ℚ` used to exercise the (metric-
independent) control-flow claims on concrete inputs. -/
def taxicab (y1 x1 y2 x2 : ℚ) : ℚ := |y2 - y1| + |x2 - x1|

/-- Well-formed graph: distinct node ids and edge endpoints drawn from the
node set (networkx guarantees both). -/
def WFGraph {K : Type} (g : Graph K) : Prop :=
  (nodeIds g).Nodup ∧ ∀ e ∈ g.edges, e.1 ∈ nodeIds g ∧ e.2.1 ∈ nodeIds g

instance {K : Type} (g : Graph K) : Decidable (WFGraph g) :=
  inferInstanceAs (Decidable (_ ∧ _))

/-- The data-model invariant of the spec: every stored edge length is
non-negative (the default 1 always is). -/
def NonnegWeights {K : Type} [LinearOrderedField K] (g : Graph K) : Prop :=
  ∀ e ∈ g.edges, (0 : K) ≤ e.2.2.getD 1

instance {K : Type} [LinearOrderedField K] (g : Graph K) : Decidable (NonnegWeights g) :=
  inferInstanceAs (Decidable (∀ e ∈ g.edges, _ ≤ _))

/-- The results-list entry built at line 150 of the source for a solver run
`(name, (path, dist, vis), duration)`. -/
def mkEntry {K : Type} [LinearOrderedField K] [FloorRing K]
    (t : String × SolveOut K × K) : AlgoResult K :=
  ⟨t.1, roundTo2 (t.2.1.2.1 / 1000), roundTo2 (t.2.2 * 1000), t.2.1.2.2.length⟩

/-- Total coordinate accessor (used to state what `calculate_path_distance`
computes once its node lookups are known to succeed). -/
def coordOf {K : Type} [LinearOrderedField K] (g : Graph K) (n : NodeId) : NodeData K :=
  match getData g n with
  | .ok d => d
  | .error _ => ⟨0, 0⟩

/-- A predecessor map respects a finalization-order list when every stored
predecessor is an already-finalized node that was finalized strictly before
its key: backward walks through such a map strictly descend the order, so
they terminate. -/
def Respects (cf : List (NodeId × NodeId)) (vl : List NodeId) : Prop :=
  ∀ kv ∈ cf, kv.2 ∈ vl ∧ (kv.1 ∈ vl → List.indexOf kv.2 vl < List.indexOf kv.1 vl)

/-- Loop invariant of `bfs_solve`: `order` is the pop order so far, `q` the
queue, `vs` the visited set, `cf` the predecessor map.  Discovered nodes are
listed once, are all in the visited set, the predecessor map respects the
discovery order, and at most one discovered node (the start) lacks a
predecessor entry. -/
def BfsInv {K : Type} (g : Graph K) (q vs : List NodeId) (cf : List (NodeId × NodeId))
    (order : List NodeId) : Prop :=
  (order ++ q).Nodup ∧ (∀ x ∈ order ++ q, x ∈ vs) ∧ Respects cf (order ++ q) ∧
  (order ++ q).length ≤ cf.length + 1

/-- Loop invariant of `dfs_solve`: `order` is the finalization order (equal
as a set to the visited set `vs`), the predecessor map respects it, and the
number of finalized nodes plus pending stack entries is bounded by the number
of predecessor-map writes plus one. -/
def DfsInv {K : Type} (g : Graph K) (st vs : List NodeId) (cf : List (NodeId × NodeId))
    (order : List NodeId) : Prop :=
  order.Nodup ∧ (∀ x ∈ order, x ∈ vs) ∧ (∀ x ∈ vs, x ∈ order) ∧ Respects cf order ∧
  order.length + st.length ≤ cf.length + 1

/-- The loop measure of `dfs_solve`: total out-neighbor count of the nodes
not yet finalized. -/
def dfsMeasure {K : Type} (g : Graph K) (vs : List NodeId) : Nat :=
  (((nodeIds g).filter (fun x => decide (x ∉ vs))).map
    (fun v => (neighborsList g v).length)).sum

/-- Modelled from the spec: the explicit "unknown node" condition the spec's
error-handling section says the core fails with on a malformed node
identifier.  No such condition exists in the source; this string names what
would have to be surfaced for the claim to hold. -/
def unknown_node_condition : String := "unknown node"

/-- Two nodes on the equator 180 degrees apart, one edge of length 5 between
them.  Every solver finds the one-edge path. -/
def gRun2 (K : Type) [LinearOrderedField K] : Graph K :=
  ⟨[(0, ⟨0, 0⟩), (1, ⟨0, 180⟩)], [(0, 1, some 5)]⟩

/-- Two nodes, no edges: every solver exhausts its frontier. -/
def gDisc (K : Type) [LinearOrderedField K] : Graph K :=
  ⟨[(0, ⟨0, 0⟩), (1, ⟨0, 90⟩)], []⟩

/-- Three nodes with one edge; node 2 is unreachable, so a comparison from 0
to 2 finds no winning path although the node set is nonempty. -/
def gDisc3 (K : Type) [LinearOrderedField K] : Graph K :=
  ⟨[(0, ⟨1, 2⟩), (1, ⟨3, 4⟩), (2, ⟨5, 6⟩)], [(0, 1, some 1)]⟩

/-- The five solver outcomes of the comparison on `gRun2 ℚ` with the taxicab
metric (used as a concrete witness run). -/
def tsRun2 : List (String × SolveOut ℚ × ℚ) :=
  [("A* (A-Star)", ([0, 1], 180, [0, 1]), 0), ("Dijkstra", ([0, 1], 180, [0, 1]), 0),
   ("Greedy BFS", ([0, 1], 180, [0, 1]), 0), ("BFS", ([0, 1], 180, [0, 1]), 0),
   ("DFS", ([0, 1], 180, [0, 1]), 0)]

/-- The report of the comparison on `gRun2 ℚ` with the taxicab metric. -/
def rRun2 : Report ℚ :=
  ⟨[⟨"A* (A-Star)", 9 / 50, 0, 2⟩, ⟨"Dijkstra", 9 / 50, 0, 2⟩, ⟨"Greedy BFS", 9 / 50, 0, 2⟩,
    ⟨"BFS", 9 / 50, 0, 2⟩, ⟨"DFS", 9 / 50, 0, 2⟩],
   some ⟨((0, 180), (0, 0)), [(0, 0), (0, 180)], [(0, 0), (0, 180)]⟩,
   some "A* (A-Star)"⟩

/-- Equator graph on which uniform-cost and informed search disagree: the
cheap route 0→2→3→4 (lengths 1,1,1) doubles back geographically, while the
expensive route 0→1→4 (lengths 10,10) is geographically direct, so the
great-circle heuristic steers A* onto the expensive route.  Coordinates:
node 0 at longitude 0, nodes 1 and 2 at longitude 90, node 3 at longitude 0,
node 4 at longitude 180, all on the equator. -/
def gTie (K : Type) [LinearOrderedField K] : Graph K :=
  ⟨[(0, ⟨0, 0⟩), (1, ⟨0, 90⟩), (2, ⟨0, 90⟩), (3, ⟨0, 0⟩), (4, ⟨0, 180⟩)],
   [(0, 1, some 10), (0, 2, some 1), (1, 4, some 10), (2, 3, some 1), (3, 4, some 1)]⟩

/-! ## Basic lemmas about lookups -/

@[simp] lemma ok_bind {E A B : Type} (a : A) (f : A → Except E B) :
    (Except.ok a : Except E A) >>= f = f a := rfl

@[simp] lemma error_bind {E A B : Type} (e : E) (f : A → Except E B) :
    (Except.error e : Except E A) >>= f = .error e := rfl

@[simp] lemma pure_eq_ok {E A : Type} (a : A) : (pure a : Except E A) = .ok a := rfl

lemma mapGet?_eq_none {V : Type} (m : List (NodeId × V)) (k : NodeId)
    (h : ∀ p ∈ m, p.1 ≠ k) : mapGet? m k = none := by
  induction m with
  | nil => rfl
  | cons p rest ih =>
    rw [mapGet?, if_neg (h p (List.mem_cons_self p rest))]
    exact ih fun q hq => h q (List.mem_cons_of_mem p hq)

lemma mapGet?_mem_isSome {V : Type} (m : List (NodeId × V)) (k : NodeId)
    (h : ∃ p ∈ m, p.1 = k) : ∃ v, mapGet? m k = some v := by
  induction m with
  | nil => obtain ⟨p, hp, _⟩ := h; exact absurd hp (List.not_mem_nil p)
  | cons p rest ih =>
    by_cases hp : p.1 = k
    · exact ⟨p.2, by rw [mapGet?, if_pos hp]⟩
    · obtain ⟨q, hq, hqk⟩ := h
      rcases List.mem_cons.1 hq with rfl | hq'
      · exact absurd hqk hp
      · obtain ⟨v, hv⟩ := ih ⟨q, hq', hqk⟩
        exact ⟨v, by rw [mapGet?, if_neg hp, hv]⟩

lemma getData_of_not_mem {K : Type} (g : Graph K) (n : NodeId) (h : n ∉ nodeIds g) :
    getData g n = .error (.keyErr n) := by
  unfold getData
  rw [mapGet?_eq_none g.nodes n fun p hp hk =>
    h (List.mem_map.2 ⟨p, hp, hk⟩)]

lemma getData_of_mem {K : Type} (g : Graph K) (n : NodeId) (h : n ∈ nodeIds g) :
    ∃ d, getData g n = .ok d := by
  obtain ⟨p, hp, hid⟩ := List.mem_map.1 h
  obtain ⟨v, hv⟩ := mapGet?_mem_isSome g.nodes n ⟨p, hp, hid⟩
  exact ⟨v, by unfold getData; rw [hv]⟩

lemma getData_coordOf {K : Type} [LinearOrderedField K] (g : Graph K) (n : NodeId)
    (h : n ∈ nodeIds g) : getData g n = .ok (coordOf g n) := by
  obtain ⟨d, hd⟩ := getData_of_mem g n h
  rw [coordOf, hd]

/-! ## Path reconstruction (C7) -/

lemma rpLoop_sound (cf : List (NodeId × NodeId)) :
    ∀ (fuel : Nat) (current : NodeId) (acc l : List NodeId),
      rpLoop cf fuel current acc = some l →
      ∃ w, l = acc ++ w ∧
        List.Chain' (fun a b => mapGet? cf a = some b) (current :: w) ∧
        mapGet? cf ((current :: w).getLast (List.cons_ne_nil _ _)) = none := by
  intro fuel
  induction fuel with
  | zero =>
    intro current acc l h
    rw [rpLoop] at h
    cases hg : mapGet? cf current with
    | none =>
      rw [hg] at h
      exact ⟨[], by simpa using (Option.some_inj.1 h).symm, List.chain'_singleton _,
        by simpa using hg⟩
    | some p => rw [hg] at h; exact absurd h (by simp)
  | succ f ih =>
    intro current acc l h
    rw [rpLoop] at h
    cases hg : mapGet? cf current with
    | none =>
      rw [hg] at h
      exact ⟨[], by simpa using (Option.some_inj.1 h).symm, List.chain'_singleton _,
        by simpa using hg⟩
    | some p =>
      rw [hg] at h
      obtain ⟨w', hl, hch, hlast⟩ := ih p (acc ++ [p]) l h
      refine ⟨p :: w', by simpa [List.append_assoc] using hl, List.chain'_cons.2 ⟨hg, hch⟩, ?_⟩
      rwa [List.getLast_cons (List.cons_ne_nil _ _)]

/-- C7: `reconstruct_path` walks predecessor links backward from the goal
until a node with no predecessor entry is reached, then reverses: whenever it
returns a sequence, the sequence is nonempty, ends at the goal, starts at a
predecessor-less node, each element's predecessor entry is the element before
it, and a goal with no predecessor entry yields exactly `[goal]`.  (The
predecessor map and graph are pure values in this embedding, so they are
unchanged by construction; `none` models the divergence of the Python loop on
a cyclic map, which the solvers never build.) -/
theorem reconstruct_path_walks (cf : List (NodeId × NodeId)) (goal : NodeId)
    (p : List NodeId) (h : reconstruct_path cf goal = some p) :
    p ≠ [] ∧ p.getLast? = some goal ∧
    (∀ s, p.head? = some s → mapGet? cf s = none) ∧
    List.Chain' (fun a b => mapGet? cf b = some a) p ∧
    (mapGet? cf goal = none → p = [goal]) := by
  unfold reconstruct_path at h
  obtain ⟨l, hl, hrev⟩ := Option.map_eq_some'.1 h
  obtain ⟨w, hacc, hch, hlast⟩ := rpLoop_sound cf _ goal [goal] l hl
  have hlgw : l = goal :: w := by simpa using hacc
  subst hlgw
  subst hrev
  refine ⟨by simp, by simp, ?_, ?_, ?_⟩
  · intro s hs
    rw [List.head?_reverse] at hs
    rw [List.getLast?_eq_getLast _ (List.cons_ne_nil goal w), Option.some_inj] at hs
    exact hs ▸ hlast
  · exact List.chain'_reverse.2 (by simpa [flip] using hch)
  · intro hnone
    have : rpLoop cf (cf.length + 1) goal [goal] = some [goal] := by
      rw [rpLoop, hnone]
    rw [this] at hl
    simp [← Option.some_inj.1 hl]

/-- Witness for C7 at a concrete predecessor map: goal 3 with entries
3 ↦ 2 ↦ 1 reconstructs to `[1, 2, 3]`. -/
theorem reconstruct_path_walks_witness :
    reconstruct_path [(3, 2), (2, 1)] 3 = some [1, 2, 3] ∧
    ([1, 2, 3] : List NodeId) ≠ [] ∧ ([1, 2, 3] : List NodeId).getLast? = some 3 ∧
    (∀ s, ([1, 2, 3] : List NodeId).head? = some s → mapGet? [(3, 2), (2, 1)] s = none) ∧
    List.Chain' (fun a b => mapGet? [(3, 2), (2, 1)] b = some a) [1, 2, 3] ∧
    (mapGet? [(3, 2), (2, 1)] 3 = none → ([1, 2, 3] : List NodeId) = [3]) :=
  ⟨by decide, reconstruct_path_walks [(3, 2), (2, 1)] 3 [1, 2, 3] (by decide)⟩

/-! ## Distance accumulator (C8) -/

lemma nodeDist_edges_irrelevant {K : Type} (gc : K → K → K → K → K) (g : Graph K)
    (es' : List (NodeId × NodeId × Option K)) (u v : NodeId) :
    nodeDist gc ⟨g.nodes, es'⟩ u v = nodeDist gc g u v := rfl

lemma nodeDist_ok {K : Type} [LinearOrderedField K] (gc : K → K → K → K → K) (g : Graph K)
    (u v : NodeId) (hu : u ∈ nodeIds g) (hv : v ∈ nodeIds g) :
    nodeDist gc g u v =
      .ok (gc (coordOf g u).y (coordOf g u).x (coordOf g v).y (coordOf g v).x) := by
  unfold nodeDist
  rw [getData_coordOf g u hu, getData_coordOf g v hv]
  rfl

lemma calcPairs_edges_irrelevant {K : Type} [LinearOrderedField K] (gc : K → K → K → K → K)
    (g : Graph K) (es' : List (NodeId × NodeId × Option K)) :
    ∀ l, calcPairs gc ⟨g.nodes, es'⟩ l = calcPairs gc g l := by
  intro l
  induction l with
  | nil => rfl
  | cons uv rest ih =>
    obtain ⟨u, v⟩ := uv
    rw [calcPairs, calcPairs, nodeDist_edges_irrelevant, ih]

/-- C8: `calculate_path_distance` sums, over consecutive node pairs, the
coordinate distance `gc` of the two nodes' coordinates; it never reads the
stored edge weights (replacing the whole edge set leaves it unchanged), and
an empty or single-node path yields 0. -/
theorem calculate_path_distance_spec {K : Type} [LinearOrderedField K]
    (gc : K → K → K → K → K) (g : Graph K) :
    (∀ (es' : List (NodeId × NodeId × Option K)) (path : List NodeId),
      calculate_path_distance gc ⟨g.nodes, es'⟩ path = calculate_path_distance gc g path) ∧
    calculate_path_distance gc g [] = .ok 0 ∧
    (∀ x, calculate_path_distance gc g [x] = .ok 0) ∧
    (∀ path, (∀ n ∈ path, n ∈ nodeIds g) →
      calculate_path_distance gc g path =
        .ok (((path.zip path.tail).map (fun uv =>
          gc (coordOf g uv.1).y (coordOf g uv.1).x
             (coordOf g uv.2).y (coordOf g uv.2).x)).sum)) := by
  refine ⟨fun es' path => calcPairs_edges_irrelevant gc g es' _, rfl, fun x => rfl, ?_⟩
  intro path
  induction path with
  | nil => intro _; rfl
  | cons u rest ih =>
    intro hmem
    cases rest with
    | nil => rfl
    | cons v rest' =>
      have hu : u ∈ nodeIds g := hmem u (by simp)
      have hv : v ∈ nodeIds g := hmem v (by simp)
      have ihv := ih (fun n hn => hmem n (List.mem_cons_of_mem u hn))
      unfold calculate_path_distance at ihv ⊢
      simp only [List.zip_cons_cons, List.tail_cons] at ihv ⊢
      rw [calcPairs, nodeDist_ok gc g u v hu hv, ihv]
      rfl

/-- Witness for C8 at `ℚ` with the taxicab stand-in metric on a concrete
two-edge path. -/
theorem calculate_path_distance_spec_witness :
    (∀ n ∈ ([0, 1, 4] : List NodeId), n ∈ nodeIds (gTie ℚ)) ∧
    calculate_path_distance taxicab (gTie ℚ) [0, 1, 4] =
      .ok ((([0, 1, 4] : List NodeId).zip ([0, 1, 4] : List NodeId).tail).map (fun uv =>
        taxicab (coordOf (gTie ℚ) uv.1).y (coordOf (gTie ℚ) uv.1).x
          (coordOf (gTie ℚ) uv.2).y (coordOf (gTie ℚ) uv.2).x)).sum :=
  ⟨by decide, (calculate_path_distance_spec taxicab (gTie ℚ)).2.2.2 [0, 1, 4] (by decide)⟩

/-! ## Runs that exhaust the frontier immediately -/

lemma a_star_no_out {K : Type} [LinearOrderedField K] (gc : K → K → K → K → K)
    (g : Graph K) (s e : NodeId) (fuel : Nat) (hs : s ∈ nodeIds g) (he : e ∈ nodeIds g)
    (hne : s ≠ e) (hn : neighborsList g s = []) :
    a_star_solve gc g s e (fuel + 2) = .ok ([], 0, [s]) := by
  obtain ⟨ds, hds⟩ := getData_of_mem g s hs
  obtain ⟨de, hde⟩ := getData_of_mem g e he
  simp only [a_star_solve, heuristic, nodeDist, hds, hde, ok_bind, pure_eq_ok]
  rw [show fuel + 2 = (fuel + 1) + 1 from rfl, aStarLoop]
  simp [popMin, hne, neighbors, hs, hn, aStarRelax, aStarLoop]

lemma dijkstra_no_out {K : Type} [LinearOrderedField K] (gc : K → K → K → K → K)
    (g : Graph K) (s e : NodeId) (fuel : Nat) (hs : s ∈ nodeIds g)
    (hne : s ≠ e) (hn : neighborsList g s = []) :
    dijkstra_solve gc g s e (fuel + 2) = .ok ([], 0, [s]) := by
  simp only [dijkstra_solve]
  rw [show fuel + 2 = (fuel + 1) + 1 from rfl, dijkstraLoop]
  simp [popMin, mapGet?, staleOpt, hne, neighbors, hs, hn, dijRelax, dijkstraLoop]

lemma greedy_no_out {K : Type} [LinearOrderedField K] (gc : K → K → K → K → K)
    (g : Graph K) (s e : NodeId) (fuel : Nat) (hs : s ∈ nodeIds g) (he : e ∈ nodeIds g)
    (hne : s ≠ e) (hn : neighborsList g s = []) :
    greedy_bfs_solve gc g s e (fuel + 2) = .ok ([], 0, [s]) := by
  obtain ⟨ds, hds⟩ := getData_of_mem g s hs
  obtain ⟨de, hde⟩ := getData_of_mem g e he
  simp only [greedy_bfs_solve, heuristic, nodeDist, hds, hde, ok_bind, pure_eq_ok]
  rw [show fuel + 2 = (fuel + 1) + 1 from rfl, greedyLoop]
  simp [popMin, hne, neighbors, hs, hn, greedyRelax, greedyLoop]

lemma bfs_no_out {K : Type} [LinearOrderedField K] (gc : K → K → K → K → K)
    (g : Graph K) (s e : NodeId) (fuel : Nat) (hs : s ∈ nodeIds g)
    (hne : s ≠ e) (hn : neighborsList g s = []) :
    bfs_solve gc g s e (fuel + 2) = .ok ([], 0, [s]) := by
  simp only [bfs_solve]
  rw [show fuel + 2 = (fuel + 1) + 1 from rfl, bfsLoop]
  simp [hne, neighbors, hs, hn, bfsEnqueue, bfsLoop]

lemma dfs_no_out {K : Type} [LinearOrderedField K] (gc : K → K → K → K → K)
    (g : Graph K) (s e : NodeId) (fuel : Nat) (hs : s ∈ nodeIds g)
    (hne : s ≠ e) (hn : neighborsList g s = []) :
    dfs_solve gc g s e (fuel + 2) = .ok ([], 0, [s]) := by
  simp only [dfs_solve]
  rw [show fuel + 2 = (fuel + 1) + 1 from rfl, dfsLoop]
  simp [hne, neighbors, hs, hn, dfsPushList, dfsLoop]

/-! ## The result-collection loop of `compare_routes` (C1, C2, C3, C5) -/

lemma selectStep_results {K : Type} [LinearOrderedField K] [FloorRing K] (acc : SelAcc K)
    (t : String × SolveOut K × K) :
    (selectStep acc t).results =
      if t.2.1.1.isEmpty then acc.results else acc.results ++ [mkEntry t] := by
  obtain ⟨name, ⟨path, dist, vis⟩, dur⟩ := t
  cases path with
  | nil => simp [selectStep]
  | cons a l =>
    simp only [selectStep, mkEntry, List.isEmpty_cons, if_neg Bool.false_ne_true]
    split <;> rfl

lemma selectStep_of_empty {K : Type} [LinearOrderedField K] [FloorRing K] (acc : SelAcc K)
    (name : String) (dist : K) (vis : List NodeId) (dur : K) :
    selectStep acc (name, ([], dist, vis), dur) = acc := rfl

lemma selectLoop_results {K : Type} [LinearOrderedField K] [FloorRing K]
    (ts : List (String × SolveOut K × K)) :
    ∀ acc : SelAcc K, (selectLoop acc ts).results =
      acc.results ++ (ts.filter (fun t => !t.2.1.1.isEmpty)).map mkEntry := by
  induction ts with
  | nil => intro acc; simp [selectLoop]
  | cons t ts ih =>
    intro acc
    rw [selectLoop, ih, selectStep_results]
    cases hp : t.2.1.1.isEmpty <;> simp [List.filter_cons, hp]

lemma compare_core_ok {K : Type} [LinearOrderedField K] [FloorRing K]
    (gc : K → K → K → K → K) (g : Graph K) (s e : NodeId) (fuel : Nat) (tm : Nat → K)
    (ts : List (String × SolveOut K × K)) (hrun : runAll gc g s e fuel tm = .ok ts) :
    compare_core gc g s e fuel tm =
      .ok ⟨(selectLoop ⟨[], [], none, []⟩ ts).results,
        (match (selectLoop ⟨[], [], none, []⟩ ts).bestPath with
         | [] => none
         | _ :: _ =>
           some ⟨extremaBounds g,
             (selectLoop ⟨[], [], none, []⟩ ts).animVisited.map (coordPair g),
             (selectLoop ⟨[], [], none, []⟩ ts).bestPath.map (coordPair g)⟩),
        fastestOf (selectLoop ⟨[], [], none, []⟩ ts).results⟩ := by
  unfold compare_core
  rw [hrun]
  rfl

lemma compare_all_fail {K : Type} [LinearOrderedField K] [FloorRing K]
    (gc : K → K → K → K → K) (g : Graph K) (s e : NodeId) (fuel : Nat) (tm : Nat → K)
    (hs : s ∈ nodeIds g) (he : e ∈ nodeIds g) (hne : s ≠ e)
    (hn : neighborsList g s = []) :
    compare_routes gc g s e (fuel + 2) tm = .ok ⟨[], none, none⟩ := by
  have hrun : runAll gc g s e (fuel + 2) tm =
      .ok [("A* (A-Star)", ([], 0, [s]), tm 0), ("Dijkstra", ([], 0, [s]), tm 1),
           ("Greedy BFS", ([], 0, [s]), tm 2), ("BFS", ([], 0, [s]), tm 3),
           ("DFS", ([], 0, [s]), tm 4)] := by
    simp only [runAll, a_star_no_out gc g s e fuel hs he hne hn,
      dijkstra_no_out gc g s e fuel hs hne hn, greedy_no_out gc g s e fuel hs he hne hn,
      bfs_no_out gc g s e fuel hs hne hn, dfs_no_out gc g s e fuel hs hne hn, ok_bind]
  have hc := compare_core_ok gc g s e (fuel + 2) tm _ hrun
  simp only [selectLoop, selectStep_of_empty] at hc
  rw [compare_routes, hc]
  rfl

/-! ## A concrete successful comparison on `gRun2` (witness run) -/

set_option maxHeartbeats 1000000 in
lemma gRun2_astar : a_star_solve (K := ℚ) taxicab (gRun2 ℚ) 0 1 10 = .ok ([0, 1], 180, [0, 1]) := by
  simp only [a_star_solve, heuristic, nodeDist, getData, gRun2]
  norm_num [mapGet?]
  rw [show (10 : Nat) = 9 + 1 from rfl, aStarLoop]
  norm_num [popMin, mapGet?, neighbors, neighborsList, firstDedup, nodeIds, gRun2,
    aStarRelax, edgeLen, ltOpt, mapSet, heappush, lexLt, heuristic, nodeDist, getData,
    taxicab]
  rw [show (9 : Nat) = 8 + 1 from rfl, aStarLoop]
  norm_num [popMin, mapGet?, lexLt, finishAt, reconstruct_path, rpLoop,
    calculate_path_distance, calcPairs, nodeDist, getData, taxicab, gRun2]

set_option maxHeartbeats 1000000 in
lemma gRun2_dijkstra : dijkstra_solve (K := ℚ) taxicab (gRun2 ℚ) 0 1 10 = .ok ([0, 1], 180, [0, 1]) := by
  simp only [dijkstra_solve]
  rw [show (10 : Nat) = 9 + 1 from rfl, dijkstraLoop]
  norm_num [popMin, staleOpt, mapGet?, neighbors, neighborsList, firstDedup, nodeIds,
    gRun2, dijRelax, edgeLen, ltOpt, mapSet, heappush, lexLt]
  rw [show (9 : Nat) = 8 + 1 from rfl, dijkstraLoop]
  norm_num [popMin, staleOpt, mapGet?, lexLt, finishAt, reconstruct_path, rpLoop,
    calculate_path_distance, calcPairs, nodeDist, getData, taxicab, gRun2]

set_option maxHeartbeats 1000000 in
lemma gRun2_greedy : greedy_bfs_solve (K := ℚ) taxicab (gRun2 ℚ) 0 1 10 = .ok ([0, 1], 180, [0, 1]) := by
  simp only [greedy_bfs_solve, heuristic, nodeDist, getData, gRun2]
  norm_num [mapGet?]
  rw [show (10 : Nat) = 9 + 1 from rfl, greedyLoop]
  norm_num [popMin, mapGet?, neighbors, neighborsList, firstDedup, nodeIds, gRun2,
    greedyRelax, edgeLen, ltOpt, mapSet, heappush, lexLt, heuristic, nodeDist, getData,
    taxicab]
  rw [show (9 : Nat) = 8 + 1 from rfl, greedyLoop]
  norm_num [popMin, mapGet?, lexLt, finishAt, reconstruct_path, rpLoop,
    calculate_path_distance, calcPairs, nodeDist, getData, taxicab, gRun2]

set_option maxHeartbeats 1000000 in
lemma gRun2_bfs : bfs_solve (K := ℚ) taxicab (gRun2 ℚ) 0 1 10 = .ok ([0, 1], 180, [0, 1]) := by
  simp only [bfs_solve]
  rw [show (10 : Nat) = 9 + 1 from rfl, bfsLoop]
  norm_num [neighbors, neighborsList, firstDedup, nodeIds, gRun2, bfsEnqueue, mapSet]
  rw [show (9 : Nat) = 8 + 1 from rfl, bfsLoop]
  norm_num [finishAt, reconstruct_path, rpLoop, mapGet?, calculate_path_distance,
    calcPairs, nodeDist, getData, taxicab, gRun2]

set_option maxHeartbeats 1000000 in
lemma gRun2_dfs : dfs_solve (K := ℚ) taxicab (gRun2 ℚ) 0 1 10 = .ok ([0, 1], 180, [0, 1]) := by
  simp only [dfs_solve]
  rw [show (10 : Nat) = 9 + 1 from rfl, dfsLoop]
  norm_num [neighbors, neighborsList, firstDedup, nodeIds, gRun2, dfsPushList, mapSet]
  rw [show (9 : Nat) = 8 + 1 from rfl, dfsLoop]
  norm_num [finishAt, reconstruct_path, rpLoop, mapGet?, calculate_path_distance,
    calcPairs, nodeDist, getData, taxicab, gRun2]

lemma gRun2_runAll : runAll taxicab (gRun2 ℚ) 0 1 10 (fun _ => 0) = .ok tsRun2 := by
  simp only [runAll, gRun2_astar, gRun2_dijkstra, gRun2_greedy, gRun2_bfs, gRun2_dfs,
    ok_bind, tsRun2]

set_option maxHeartbeats 1000000 in
lemma gRun2_compare : compare_core taxicab (gRun2 ℚ) 0 1 10 (fun _ => 0) = .ok rRun2 := by
  rw [compare_core_ok taxicab (gRun2 ℚ) 0 1 10 (fun _ => 0) tsRun2 gRun2_runAll]
  norm_num [selectLoop, selectStep, tsRun2, rRun2, trustedNames, ltOpt, roundTo2,
    roundHalfEven, fastestOf, extremaBounds, minList, maxList, coordPair, getData, gRun2,
    mapGet?]

/-- C1 (amended): a solver that fails to find a path contributes NO entry to
the result list — the results of a comparison are exactly the entries of the
solvers that returned a nonempty path, in solver order.  In particular, when
all solvers fail the result list is empty. -/
theorem results_only_for_found_paths {K : Type} [LinearOrderedField K] [FloorRing K]
    (gc : K → K → K → K → K) (g : Graph K) (s e : NodeId) (fuel : Nat) (tm : Nat → K)
    (ts : List (String × SolveOut K × K)) (r : Report K)
    (hrun : runAll gc g s e fuel tm = .ok ts)
    (hcmp : compare_core gc g s e fuel tm = .ok r) :
    r.results = (ts.filter (fun t => !t.2.1.1.isEmpty)).map mkEntry := by
  rw [compare_core_ok gc g s e fuel tm ts hrun] at hcmp
  rw [← Except.ok.inj hcmp]
  simpa using selectLoop_results ts ⟨[], [], none, []⟩

/-- C1 counterexample: on a two-node graph with no edges every solver
exhausts its frontier, yet the comparison reports an EMPTY result list — no
per-algorithm entries with distance 0 are reported, contradicting the claim
that a failing solver still contributes an entry. -/
theorem all_fail_no_results_reported :
    compare_routes taxicab (gDisc ℚ) 0 1 10 (fun _ => 0) = .ok ⟨[], none, none⟩ :=
  compare_all_fail taxicab (gDisc ℚ) 0 1 8 (fun _ => 0) (by decide) (by decide)
    (by decide) (by decide)

/-- Witness for the amended C1 at a concrete run where all five solvers find
the one-edge path. -/
theorem results_only_for_found_paths_witness :
    runAll taxicab (gRun2 ℚ) 0 1 10 (fun _ => 0) = .ok tsRun2 ∧
    compare_core taxicab (gRun2 ℚ) 0 1 10 (fun _ => 0) = .ok rRun2 ∧
    rRun2.results = (tsRun2.filter (fun t => !t.2.1.1.isEmpty)).map mkEntry :=
  ⟨gRun2_runAll, gRun2_compare,
    results_only_for_found_paths taxicab (gRun2 ℚ) 0 1 10 (fun _ => 0) tsRun2 rRun2
      gRun2_runAll gRun2_compare⟩

/-- C3 (amended): whenever animation data is present its bounding box equals
the coordinate extrema over the graph's FULL node set (independent of the
search results); but the animation data — bounding box included — is present
if and only if a winning path was found. -/
theorem bounding_box_from_full_node_set {K : Type} [LinearOrderedField K] [FloorRing K]
    (gc : K → K → K → K → K) (g : Graph K) (s e : NodeId) (fuel : Nat) (tm : Nat → K)
    (ts : List (String × SolveOut K × K)) (r : Report K)
    (hrun : runAll gc g s e fuel tm = .ok ts)
    (hcmp : compare_core gc g s e fuel tm = .ok r) :
    (∀ a, r.animation = some a → a.bounds = extremaBounds g) ∧
    (r.animation = none ↔ (selectLoop ⟨[], [], none, []⟩ ts).bestPath = []) := by
  rw [compare_core_ok gc g s e fuel tm ts hrun] at hcmp
  rw [← Except.ok.inj hcmp]
  cases hbp : (selectLoop (⟨[], [], none, []⟩ : SelAcc K) ts).bestPath with
  | nil => exact ⟨fun a ha => by simp [hbp] at ha, by simp [hbp]⟩
  | cons b l =>
    refine ⟨fun a ha => ?_, by simp [hbp]⟩
    simp only [hbp] at ha
    rw [← Option.some_inj.1 ha]

/-- C3 counterexample: a comparison on a nonempty graph whose goal is
unreachable produces NO bounding box at all (animation data is empty), so the
bounding box's presence in the report is not independent of the search
results. -/
theorem no_winner_no_bounding_box :
    compare_routes taxicab (gDisc3 ℚ) 1 2 10 (fun _ => 0) = .ok ⟨[], none, none⟩ ∧
    (gDisc3 ℚ).nodes ≠ [] :=
  ⟨compare_all_fail taxicab (gDisc3 ℚ) 1 2 8 (fun _ => 0) (by decide) (by decide)
    (by decide) (by decide), by decide⟩

/-- Witness for the amended C3 at a concrete run with a winning path. -/
theorem bounding_box_from_full_node_set_witness :
    (∀ a, rRun2.animation = some a → a.bounds = extremaBounds (gRun2 ℚ)) ∧
    (rRun2.animation = none ↔
      (selectLoop ⟨[], [], none, []⟩ tsRun2).bestPath = []) :=
  bounding_box_from_full_node_set taxicab (gRun2 ℚ) 0 1 10 (fun _ => 0) tsRun2 rRun2
    gRun2_runAll gRun2_compare

/-- C5: the winning path is selected only among A*, Dijkstra and BFS results
(a result from any other solver, in particular Greedy BFS or DFS, never
touches the winner state), and — given that a solver reports distance 0
whenever its path is empty — a candidate replaces the current winner exactly
when its reported distance is below the current minimum and strictly
positive. -/
theorem winning_path_selection {K : Type} [LinearOrderedField K] [FloorRing K]
    (acc : SelAcc K) (name : String) (path : List NodeId) (dist : K)
    (vis : List NodeId) (dur : K) :
    ("Greedy BFS" ∉ trustedNames ∧ "DFS" ∉ trustedNames ∧
      trustedNames = ["A* (A-Star)", "Dijkstra", "BFS"]) ∧
    (name ∉ trustedNames →
      ((selectStep acc (name, (path, dist, vis), dur)).bestPath = acc.bestPath ∧
       (selectStep acc (name, (path, dist, vis), dur)).minDistance = acc.minDistance ∧
       (selectStep acc (name, (path, dist, vis), dur)).animVisited = acc.animVisited)) ∧
    ((path = [] → dist = 0) →
      ((selectStep acc (name, (path, dist, vis), dur)).bestPath,
       (selectStep acc (name, (path, dist, vis), dur)).minDistance,
       (selectStep acc (name, (path, dist, vis), dur)).animVisited) =
        (if name ∈ trustedNames ∧ ltOpt dist acc.minDistance ∧ 0 < dist
         then (path, some dist, vis)
         else (acc.bestPath, acc.minDistance, acc.animVisited))) := by
  refine ⟨by decide, ?_, ?_⟩
  · intro hname
    cases path with
    | nil => exact ⟨rfl, rfl, rfl⟩
    | cons a l => simp [selectStep, hname]
  · intro hfail
    cases path with
    | nil =>
      rw [if_neg (by simp [hfail rfl])]
      exact rfl
    | cons a l =>
      by_cases hcond : name ∈ trustedNames ∧ ltOpt dist acc.minDistance ∧ 0 < dist
      · rw [if_pos hcond]
        simp [selectStep, hcond]
      · rw [if_neg hcond]
        simp [selectStep, hcond]

/-- Witness for C5: a positive-distance Dijkstra result against an empty
accumulator becomes the winner. -/
theorem winning_path_selection_witness :
    ((selectStep (⟨[], [], none, []⟩ : SelAcc ℚ) ("Dijkstra", ([0, 1], 5, [0, 1]), 0)).bestPath,
     (selectStep (⟨[], [], none, []⟩ : SelAcc ℚ) ("Dijkstra", ([0, 1], 5, [0, 1]), 0)).minDistance,
     (selectStep (⟨[], [], none, []⟩ : SelAcc ℚ) ("Dijkstra", ([0, 1], 5, [0, 1]), 0)).animVisited) =
      (([0, 1] : List NodeId), some (5 : ℚ), ([0, 1] : List NodeId)) := by
  have h := (winning_path_selection (K := ℚ) ⟨[], [], none, []⟩ "Dijkstra" [0, 1] 5 [0, 1] 0).2.2
    (by simp)
  rw [h, if_pos (by refine ⟨by decide, trivial, by norm_num⟩)]

/-! ## Malformed node identifiers (C4) -/

/-- C4 (amended): when the start or end node is not in the graph there is no
explicit "unknown node" pre-check; instead the FIRST solver (A*) raises a
lookup error while computing its initial heuristic, the whole comparison is
aborted with no per-algorithm results, and the caller receives the generic
location error message with the missing node's key appended. -/
theorem missing_node_generic_error {K : Type} [LinearOrderedField K] [FloorRing K]
    (gc : K → K → K → K → K) (g : Graph K) (s e : NodeId) (fuel : Nat) (tm : Nat → K)
    (h : s ∉ nodeIds g ∨ e ∉ nodeIds g) :
    a_star_solve gc g s e fuel = .error (.keyErr (if s ∈ nodeIds g then e else s)) ∧
    compare_routes gc g s e fuel tm =
      .error (locationErrorText ++ toString (if s ∈ nodeIds g then e else s)) := by
  have hastar : a_star_solve gc g s e fuel =
      .error (.keyErr (if s ∈ nodeIds g then e else s)) := by
    unfold a_star_solve heuristic nodeDist
    by_cases hs : s ∈ nodeIds g
    · have he : e ∉ nodeIds g := by
        rcases h with hs' | he'
        · exact absurd hs hs'
        · exact he'
      obtain ⟨d, hd⟩ := getData_of_mem g s hs
      rw [hd, if_pos hs, getData_of_not_mem g e he]
      rfl
    · rw [getData_of_not_mem g s hs, if_neg hs]
      rfl
  have hrun : runAll gc g s e fuel tm =
      .error (.keyErr (if s ∈ nodeIds g then e else s)) := by
    unfold runAll
    rw [hastar]
    rfl
  refine ⟨hastar, ?_⟩
  unfold compare_routes compare_core
  rw [hrun]
  rfl

/-- C4 counterexample: a comparison whose end node 99 is absent from the
graph is aborted by a `KeyError` raised inside the first solver and surfaced
as the generic location error — not as any explicit "unknown node"
condition. -/
theorem missing_node_not_unknown_node :
    compare_routes taxicab (gRun2 ℚ) 0 99 10 (fun _ => 0) =
      .error (locationErrorText ++ "99") ∧
    locationErrorText ++ "99" ≠ unknown_node_condition ∧
    (99 : NodeId) ∉ nodeIds (gRun2 ℚ) := by
  refine ⟨?_, by decide, by decide⟩
  have hastar : a_star_solve (K := ℚ) taxicab (gRun2 ℚ) 0 99 10 = .error (.keyErr 99) := by
    simp [a_star_solve, heuristic, nodeDist, getData, gRun2, mapGet?]
  have hrun : runAll taxicab (gRun2 ℚ) 0 99 10 (fun _ => 0) = .error (.keyErr 99) := by
    simp only [runAll, hastar, error_bind]
  rw [compare_routes]
  rw [show compare_core taxicab (gRun2 ℚ) 0 99 10 (fun _ => 0) = .error (.keyErr 99) from by
    rw [compare_core, hrun]; rfl]
  rfl

/-- Witness for the amended C4 with a missing start node. -/
theorem missing_node_generic_error_witness :
    ((99 : NodeId) ∉ nodeIds (gRun2 ℚ) ∨ (1 : NodeId) ∉ nodeIds (gRun2 ℚ)) ∧
    (a_star_solve taxicab (gRun2 ℚ) 99 1 10 = .error (.keyErr (if (99 : NodeId) ∈ nodeIds (gRun2 ℚ) then 1 else 99)) ∧
     compare_routes taxicab (gRun2 ℚ) 99 1 10 (fun _ => 0) =
       .error (locationErrorText ++
         toString (if (99 : NodeId) ∈ nodeIds (gRun2 ℚ) then (1 : NodeId) else 99))) :=
  ⟨Or.inl (by decide),
    missing_node_generic_error taxicab (gRun2 ℚ) 99 1 10 (fun _ => 0) (Or.inl (by decide))⟩

/-! ## Termination machinery for BFS and DFS (C9) -/

lemma mapGet?_mem {V : Type} {m : List (NodeId × V)} {k : NodeId} {v : V}
    (h : mapGet? m k = some v) : (k, v) ∈ m := by
  induction m with
  | nil => exact absurd h (by simp [mapGet?])
  | cons p rest ih =>
    rw [mapGet?] at h
    by_cases hp : p.1 = k
    · rw [if_pos hp] at h
      have hpv : p = (k, v) := Prod.ext hp (Option.some_inj.1 h)
      exact hpv ▸ List.mem_cons_self p rest
    · rw [if_neg hp] at h
      exact List.mem_cons_of_mem p (ih h)

lemma rpLoop_isSome (cf : List (NodeId × NodeId)) (vl : List NodeId)
    (hres : Respects cf vl) :
    ∀ (fuel : Nat) (current : NodeId) (acc : List NodeId), current ∈ vl →
      List.indexOf current vl < fuel → (rpLoop cf fuel current acc).isSome := by
  intro fuel
  induction fuel with
  | zero => intro current acc _ hlt; exact absurd hlt (Nat.not_lt_zero _)
  | succ f ih =>
    intro current acc hcur hlt
    rw [rpLoop]
    cases hg : mapGet? cf current with
    | none => rfl
    | some p =>
      obtain ⟨hpvl, hidx⟩ := hres (current, p) (mapGet?_mem hg)
      have hlt2 : List.indexOf p vl < List.indexOf current vl := hidx hcur
      exact ih p (acc ++ [p]) hpvl (by omega)

lemma reconstruct_path_isSome (cf : List (NodeId × NodeId)) (vl : List NodeId)
    (hres : Respects cf vl) (goal : NodeId) (hg : goal ∈ vl)
    (hlen : vl.length ≤ cf.length + 1) : (reconstruct_path cf goal).isSome := by
  unfold reconstruct_path
  rw [Option.isSome_map']
  exact rpLoop_isSome cf vl hres (cf.length + 1) goal [goal] hg
    (lt_of_lt_of_le (List.indexOf_lt_length.2 hg) hlen)

lemma calcPairs_ne_fuel {K : Type} [LinearOrderedField K] (gc : K → K → K → K → K)
    (g : Graph K) : ∀ l, calcPairs gc g l ≠ .error .fuel := by
  intro l
  induction l with
  | nil => simp [calcPairs]
  | cons uv rest ih =>
    obtain ⟨u, v⟩ := uv
    rw [calcPairs]
    cases hu : getData g u with
    | error pe =>
      simp only [nodeDist, hu, error_bind]
      unfold getData at hu
      cases hmg : mapGet? g.nodes u with
      | some d => rw [hmg] at hu; exact absurd hu (by simp)
      | none =>
        rw [hmg] at hu
        obtain rfl := (Except.error.inj hu)
        simp
    | ok du =>
      cases hv : getData g v with
      | error pe =>
        simp only [nodeDist, hu, hv, ok_bind, error_bind]
        unfold getData at hv
        cases hmg : mapGet? g.nodes v with
        | some d => rw [hmg] at hv; exact absurd hv (by simp)
        | none =>
          rw [hmg] at hv
          obtain rfl := (Except.error.inj hv)
          simp
      | ok dv =>
        simp only [nodeDist, hu, hv, ok_bind, pure_eq_ok]
        cases hr : calcPairs gc g rest with
        | error pe =>
          rw [hr] at ih
          simp only [error_bind]
          exact ih
        | ok s => simp

lemma finishAt_ne_fuel {K : Type} [LinearOrderedField K] (gc : K → K → K → K → K)
    (g : Graph K) (cf : List (NodeId × NodeId)) (cur : NodeId) (vis : List NodeId)
    (hrp : (reconstruct_path cf cur).isSome) :
    finishAt gc g cf cur vis ≠ .error .fuel := by
  unfold finishAt
  cases hr : reconstruct_path cf cur with
  | none => rw [hr] at hrp; exact absurd hrp (by simp)
  | some path =>
    cases hc : calculate_path_distance gc g path with
    | error pe =>
      have := calcPairs_ne_fuel gc g (path.zip path.tail)
      rw [show calcPairs gc g (path.zip path.tail) = calculate_path_distance gc g path
        from rfl, hc] at this
      simp only [hc, error_bind]
      intro hcontra
      exact this (by rw [Except.error.inj hcontra])
    | ok d => simp [hc]

lemma firstDedup_subset (x : NodeId) :
    ∀ (seen l : List NodeId), x ∈ firstDedup seen l → x ∈ l := by
  intro seen l
  induction l generalizing seen with
  | nil => intro h; exact absurd h (by simp [firstDedup])
  | cons a t ih =>
    intro h
    rw [firstDedup] at h
    by_cases ha : a ∈ seen
    · rw [if_pos ha] at h
      exact List.mem_cons_of_mem a (ih seen h)
    · rw [if_neg ha] at h
      rcases List.mem_cons.1 h with rfl | h'
      · exact List.mem_cons_self x t
      · exact List.mem_cons_of_mem a (ih (a :: seen) h')

lemma outTargets_subset {K : Type} (es : List (NodeId × NodeId × Option K)) (n x : NodeId)
    (h : x ∈ outTargets es n) : ∃ e ∈ es, e.2.1 = x := by
  induction es with
  | nil => exact absurd h (by simp [outTargets])
  | cons e rest ih =>
    rw [outTargets] at h
    by_cases he : e.1 = n
    · rw [if_pos he] at h
      rcases List.mem_cons.1 h with rfl | h'
      · exact ⟨e, List.mem_cons_self e rest, rfl⟩
      · obtain ⟨e', he', hx⟩ := ih h'
        exact ⟨e', List.mem_cons_of_mem e he', hx⟩
    · rw [if_neg he] at h
      obtain ⟨e', he', hx⟩ := ih h
      exact ⟨e', List.mem_cons_of_mem e he', hx⟩

lemma neighborsList_subset {K : Type} (g : Graph K)
    (hwf : ∀ e ∈ g.edges, e.1 ∈ nodeIds g ∧ e.2.1 ∈ nodeIds g) (n : NodeId) :
    ∀ x ∈ neighborsList g n, x ∈ nodeIds g := by
  intro x hx
  obtain ⟨e, he, hex⟩ := outTargets_subset g.edges n x (firstDedup_subset x [] _ hx)
  exact hex ▸ (hwf e he).2

lemma neighbors_ok {K : Type} {g : Graph K} {n : NodeId} {ns : List NodeId}
    (h : neighbors g n = .ok ns) : n ∈ nodeIds g ∧ ns = neighborsList g n := by
  unfold neighbors at h
  by_cases hn : n ∈ nodeIds g
  · rw [if_pos hn] at h
    exact ⟨hn, (Except.ok.inj h).symm⟩
  · rw [if_neg hn] at h
    exact absurd h (by simp)

lemma respects_append {cf : List (NodeId × NodeId)} {vl : List NodeId}
    (hres : Respects cf vl) (x : NodeId) (hx : x ∉ vl) : Respects cf (vl ++ [x]) := by
  intro kv hkv
  obtain ⟨hv, hk⟩ := hres kv hkv
  refine ⟨List.mem_append_left _ hv, fun hkvl => ?_⟩
  rw [List.indexOf_append_of_mem hv]
  rcases List.mem_append.1 hkvl with h1 | h2
  · rw [List.indexOf_append_of_mem h1]
    exact hk h1
  · have hx1 : kv.1 = x := by simpa using h2
    subst hx1
    rw [List.indexOf_append_of_not_mem hx]
    calc List.indexOf kv.2 vl < vl.length := List.indexOf_lt_length.2 hv
    _ ≤ vl.length + List.indexOf kv.1 [kv.1] := Nat.le_add_right _ _

lemma countP_lt_of_witness {l : List NodeId} (p p' : NodeId → Bool)
    (hmono : ∀ x ∈ l, p' x = true → p x = true) (x : NodeId) (hx : x ∈ l)
    (hpx : p x = true) (hp'x : p' x = false) : l.countP p' < l.countP p := by
  induction l with
  | nil => exact absurd hx (List.not_mem_nil x)
  | cons a t ih =>
    rw [List.countP_cons, List.countP_cons]
    have hlet : t.countP p' ≤ t.countP p :=
      List.countP_mono_left fun y hy => hmono y (List.mem_cons_of_mem a hy)
    rcases List.mem_cons.1 hx with rfl | hxt
    · rw [hpx, hp'x]
      simp only [if_true]
      norm_num
      omega
    · have hlt := ih (fun y hy hp'y => hmono y (List.mem_cons_of_mem a hy) hp'y) hxt
      by_cases hpa : p' a = true
      · rw [hpa, hmono a (List.mem_cons_self a t) hpa]
        simp only [if_true]
        omega
      · rw [Bool.not_eq_true] at hpa
        rw [hpa]
        norm_num
        omega

lemma bfsEnqueue_spec {K : Type} (g : Graph K) (cur : NodeId) :
    ∀ (ns q vs : List NodeId) (cf : List (NodeId × NodeId)) (order : List NodeId),
      BfsInv g q vs cf order → cur ∈ order → (∀ n ∈ ns, n ∈ nodeIds g) →
      BfsInv g (bfsEnqueue cur ns q vs cf).1 (bfsEnqueue cur ns q vs cf).2.1
        (bfsEnqueue cur ns q vs cf).2.2 order ∧
      (nodeIds g).countP (fun x => decide (x ∉ (bfsEnqueue cur ns q vs cf).2.1)) +
        (bfsEnqueue cur ns q vs cf).1.length ≤
      (nodeIds g).countP (fun x => decide (x ∉ vs)) + q.length := by
  intro ns
  induction ns with
  | nil =>
    intro q vs cf order hinv _ _
    exact ⟨hinv, le_refl _⟩
  | cons n ns ih =>
    intro q vs cf order hinv hcur hns
    rw [bfsEnqueue]
    by_cases hv : n ∈ vs
    · rw [if_pos hv]
      exact ih q vs cf order hinv hcur fun m hm => hns m (List.mem_cons_of_mem n hm)
    · rw [if_neg hv]
      obtain ⟨hnd, hmem, hres, hlen⟩ := hinv
      have hn_vl : n ∉ order ++ q := fun h => hv (hmem n h)
      have hinv' : BfsInv g (q ++ [n]) (vs ++ [n]) (mapSet cf n cur) order := by
        refine ⟨?_, ?_, ?_, ?_⟩
        · rw [← List.append_assoc, List.nodup_append]
          exact ⟨hnd, List.nodup_singleton n,
            fun a ha han => hn_vl ((List.mem_singleton.1 han) ▸ ha)⟩
        · intro x hx
          rw [← List.append_assoc] at hx
          rcases List.mem_append.1 hx with h1 | h2
          · exact List.mem_append_left _ (hmem x h1)
          · exact List.mem_append_right _ h2
        · rw [← List.append_assoc]
          intro kv hkv
          rcases List.mem_cons.1 hkv with rfl | hold
          · have hcurvl : cur ∈ order ++ q := List.mem_append_left _ hcur
            refine ⟨List.mem_append_left _ hcurvl, fun _ => ?_⟩
            rw [List.indexOf_append_of_mem hcurvl,
              List.indexOf_append_of_not_mem hn_vl, List.indexOf_cons_self]
            calc List.indexOf cur (order ++ q) < (order ++ q).length :=
                List.indexOf_lt_length.2 hcurvl
              _ ≤ (order ++ q).length + 0 := by omega
          · exact respects_append hres n hn_vl kv hold
        · rw [← List.append_assoc]
          have hlen2 : ((order ++ q) ++ [n]).length = (order ++ q).length + 1 := by
            simp
            omega
          rw [hlen2, mapSet, List.length_cons]
          omega
      have hstep : (nodeIds g).countP (fun x => decide (x ∉ vs ++ [n])) +
          (q ++ [n]).length ≤ (nodeIds g).countP (fun x => decide (x ∉ vs)) + q.length := by
        have hlt : (nodeIds g).countP (fun x => decide (x ∉ vs ++ [n])) <
            (nodeIds g).countP (fun x => decide (x ∉ vs)) := by
          refine countP_lt_of_witness _ _ ?_ n (hns n (List.mem_cons_self n ns)) ?_ ?_
          · intro x _ hx
            simp only [decide_eq_true_eq] at hx ⊢
            exact fun hxvs => hx (List.mem_append_left _ hxvs)
          · simpa using hv
          · simp
        simp only [List.length_append, List.length_singleton]
        omega
      obtain ⟨hi, hm⟩ := ih (q ++ [n]) (vs ++ [n]) (mapSet cf n cur) order hinv' hcur
        fun m hm => hns m (List.mem_cons_of_mem n hm)
      exact ⟨hi, le_trans hm hstep⟩

lemma neighbors_error {K : Type} {g : Graph K} {n : NodeId} {pe : PErr}
    (h : neighbors g n = .error pe) : pe = .keyErr n := by
  unfold neighbors at h
  by_cases hn : n ∈ nodeIds g
  · rw [if_pos hn] at h
    exact absurd h (by simp)
  · rw [if_neg hn] at h
    exact (Except.error.inj h).symm

lemma bfsLoop_ne_fuel {K : Type} [LinearOrderedField K] (gc : K → K → K → K → K)
    (g : Graph K) (e : NodeId)
    (hwf : ∀ eg ∈ g.edges, eg.1 ∈ nodeIds g ∧ eg.2.1 ∈ nodeIds g) :
    ∀ (fuel : Nat) (q vs : List NodeId) (cf : List (NodeId × NodeId)) (order : List NodeId),
      BfsInv g q vs cf order →
      (nodeIds g).countP (fun x => decide (x ∉ vs)) + q.length < fuel →
      bfsLoop gc g e fuel q vs cf order ≠ .error .fuel := by
  intro fuel
  induction fuel with
  | zero => intro q vs cf order _ hm; exact absurd hm (Nat.not_lt_zero _)
  | succ f ih =>
    intro q vs cf order hinv hm
    cases q with
    | nil => simp [bfsLoop]
    | cons cur rest =>
      obtain ⟨hnd, hmem, hres, hlen⟩ := hinv
      rw [bfsLoop]
      dsimp only
      by_cases hce : cur = e
      · rw [if_pos hce]
        apply finishAt_ne_fuel
        exact reconstruct_path_isSome cf (order ++ cur :: rest) hres cur
          (List.mem_append_right _ (List.mem_cons_self cur rest)) hlen
      · rw [if_neg hce]
        cases hns : neighbors g cur with
        | error pe =>
          obtain rfl := neighbors_error hns
          simp
        | ok ns =>
          obtain ⟨hcurid, hnseq⟩ := neighbors_ok hns
          simp only [ok_bind]
          have hre : order ++ cur :: rest = (order ++ [cur]) ++ rest := by simp
          have hinv' : BfsInv g rest vs cf (order ++ [cur]) := by
            refine ⟨?_, ?_, ?_, ?_⟩ <;> rw [← hre]
            · exact hnd
            · exact hmem
            · exact hres
            · exact hlen
          have hspec := bfsEnqueue_spec g cur ns rest vs cf (order ++ [cur]) hinv'
            (List.mem_append_right _ (List.mem_singleton.2 rfl))
            (fun m hm' => neighborsList_subset g hwf cur m (hnseq ▸ hm'))
          set r := bfsEnqueue cur ns rest vs cf with hr
          exact ih r.1 r.2.1 r.2.2 (order ++ [cur]) hspec.1 (by
            have hs2 := hspec.2
            simp only [List.length_cons] at hm
            omega)

lemma filter_map_sum_eq (f : NodeId → Nat) (p p' : NodeId → Bool) :
    ∀ (l : List NodeId), l.Nodup → ∀ x : NodeId, x ∈ l → p x = true → p' x = false →
      (∀ y ∈ l, y ≠ x → p y = p' y) →
      ((l.filter p).map f).sum = ((l.filter p').map f).sum + f x := by
  intro l
  induction l with
  | nil => intro _ x hx; exact absurd hx (List.not_mem_nil x)
  | cons a t ih =>
    intro hnodup x hx hpx hp'x hagree
    rw [List.filter_cons, List.filter_cons]
    rcases List.mem_cons.1 hx with rfl | hxt
    · have hxnt : x ∉ t := (List.nodup_cons.1 hnodup).1
      have hfeq : t.filter p = t.filter p' := by
        apply List.filter_congr
        intro y hy
        exact hagree y (List.mem_cons_of_mem x hy) (fun hyx => hxnt (hyx ▸ hy))
      rw [hpx, hp'x, hfeq]
      simp only [if_true, List.map_cons, List.sum_cons]
      norm_num
      omega
    · have hne : a ≠ x := fun h => (List.nodup_cons.1 hnodup).1 (h ▸ hxt)
      have hpa := hagree a (List.mem_cons_self a t) hne
      have hih := ih (List.nodup_cons.1 hnodup).2 x hxt hpx hp'x
        (fun y hy hyx => hagree y (List.mem_cons_of_mem a hy) hyx)
      cases hp : p a with
      | true =>
        rw [hp] at hpa
        rw [← hpa]
        simp only [if_true, List.map_cons, List.sum_cons]
        omega
      | false =>
        rw [hp] at hpa
        rw [← hpa]
        simp only [Bool.false_eq_true, if_false]
        omega

lemma dfsMeasure_visit {K : Type} (g : Graph K) (vs : List NodeId) (x : NodeId)
    (hnodup : (nodeIds g).Nodup) (hx : x ∈ nodeIds g) (hxvs : x ∉ vs) :
    dfsMeasure g vs = dfsMeasure g (vs ++ [x]) + (neighborsList g x).length := by
  unfold dfsMeasure
  apply filter_map_sum_eq (fun v => (neighborsList g v).length)
    (fun y => decide (y ∉ vs)) (fun y => decide (y ∉ vs ++ [x])) (nodeIds g) hnodup x hx
  · simpa using hxvs
  · simp
  · intro y _ hyx
    simp only [decide_eq_decide, List.mem_append, List.mem_singleton]
    constructor
    · intro hy hmem
      rcases hmem with h1 | h2
      · exact hy h1
      · exact hyx h2
    · intro hy hmem
      exact hy (Or.inl hmem)

lemma dfsPushList_spec (cur : NodeId) (vs order : List NodeId) (hcur : cur ∈ order)
    (hov : ∀ x ∈ order, x ∈ vs) :
    ∀ (l st : List NodeId) (cf : List (NodeId × NodeId)), Respects cf order →
      Respects (dfsPushList cur vs l st cf).2 order ∧
      (dfsPushList cur vs l st cf).1.length + cf.length =
        st.length + (dfsPushList cur vs l st cf).2.length ∧
      (dfsPushList cur vs l st cf).2.length ≤ cf.length + l.length := by
  intro l
  induction l with
  | nil => intro st cf hres; exact ⟨hres, by simp [dfsPushList], by simp [dfsPushList]⟩
  | cons n ns ih =>
    intro st cf hres
    rw [dfsPushList]
    by_cases hv : n ∈ vs
    · rw [if_pos hv]
      obtain ⟨h1, h2, h3⟩ := ih st cf hres
      exact ⟨h1, h2, by simpa using Nat.le_succ_of_le h3⟩
    · rw [if_neg hv]
      have hres' : Respects (mapSet cf n cur) order := by
        intro kv hkv
        rcases List.mem_cons.1 hkv with rfl | hold
        · exact ⟨hcur, fun hn => absurd (hov n hn) hv⟩
        · exact hres kv hold
      obtain ⟨h1, h2, h3⟩ := ih (n :: st) (mapSet cf n cur) hres'
      refine ⟨h1, ?_, ?_⟩
      · simp only [mapSet, List.length_cons] at h2 ⊢
        omega
      · simp only [mapSet, List.length_cons] at h3 ⊢
        omega

lemma dfsLoop_ne_fuel {K : Type} [LinearOrderedField K] (gc : K → K → K → K → K)
    (g : Graph K) (e : NodeId) (hnodup : (nodeIds g).Nodup)
    (hwf : ∀ eg ∈ g.edges, eg.1 ∈ nodeIds g ∧ eg.2.1 ∈ nodeIds g) :
    ∀ (fuel : Nat) (st vs : List NodeId) (cf : List (NodeId × NodeId)) (order : List NodeId),
      DfsInv g st vs cf order →
      dfsMeasure g vs + st.length < fuel →
      dfsLoop gc g e fuel st vs cf order ≠ .error .fuel := by
  intro fuel
  induction fuel with
  | zero => intro st vs cf order _ hm; exact absurd hm (Nat.not_lt_zero _)
  | succ f ih =>
    intro st vs cf order hinv hm
    cases st with
    | nil => simp [dfsLoop]
    | cons cur rest =>
      obtain ⟨hnd, hov, hvo, hres, hlen⟩ := hinv
      rw [dfsLoop]
      by_cases hvis : cur ∈ vs
      · rw [if_pos hvis]
        refine ih rest vs cf order ⟨hnd, hov, hvo, hres, ?_⟩ ?_
        · simp only [List.length_cons] at hlen
          omega
        · simp only [List.length_cons] at hm
          omega
      · rw [if_neg hvis]
        dsimp only
        have hco : cur ∉ order := fun h => hvis (hov cur h)
        have hnd' : (order ++ [cur]).Nodup := by
          rw [List.nodup_append]
          exact ⟨hnd, List.nodup_singleton cur,
            fun a ha hacur => hco ((List.mem_singleton.1 hacur) ▸ ha)⟩
        have hov' : ∀ x ∈ order ++ [cur], x ∈ vs ++ [cur] := by
          intro x hxm
          rcases List.mem_append.1 hxm with h1 | h2
          · exact List.mem_append_left _ (hov x h1)
          · exact List.mem_append_right _ h2
        have hvo' : ∀ x ∈ vs ++ [cur], x ∈ order ++ [cur] := by
          intro x hxm
          rcases List.mem_append.1 hxm with h1 | h2
          · exact List.mem_append_left _ (hvo x h1)
          · exact List.mem_append_right _ h2
        have hres' : Respects cf (order ++ [cur]) := respects_append hres cur hco
        have hcurmem : cur ∈ order ++ [cur] := List.mem_append_right _ (List.mem_singleton.2 rfl)
        by_cases hce : cur = e
        · rw [if_pos hce]
          apply finishAt_ne_fuel
          refine reconstruct_path_isSome cf (order ++ [cur]) hres' cur hcurmem ?_
          simp only [List.length_append, List.length_singleton, List.length_cons, List.length_nil] at hlen ⊢
          omega
        · rw [if_neg hce]
          cases hns : neighbors g cur with
          | error pe =>
            obtain rfl := neighbors_error hns
            simp
          | ok ns =>
            obtain ⟨hcurid, hnseq⟩ := neighbors_ok hns
            simp only [ok_bind]
            have hspec := dfsPushList_spec cur (vs ++ [cur]) (order ++ [cur]) hcurmem hov'
              ns.reverse rest cf hres'
            set r := dfsPushList cur (vs ++ [cur]) ns.reverse rest cf with hr
            have hmv := dfsMeasure_visit g vs cur hnodup hcurid hvis
            refine ih r.1 (vs ++ [cur]) r.2 (order ++ [cur])
              ⟨hnd', hov', hvo', hspec.1, ?_⟩ ?_
            · have h2 := hspec.2.1
              simp only [List.length_append, List.length_singleton, List.length_cons, List.length_nil] at hlen ⊢
              omega
            · have h2 := hspec.2.1
              have h3 := hspec.2.2
              have hns_len : ns.reverse.length = (neighborsList g cur).length := by
                rw [List.length_reverse, hnseq]
              simp only [List.length_cons] at hm
              omega

/-- C9: on a finite well-formed graph the breadth-first and depth-first
loops perform finitely many iterations even in the presence of cycles: with
any fuel of at least the stated bound (node count + 2 for BFS, total
out-neighbor count + 2 for DFS) the loop never exhausts its fuel, because
each node is finalized at most once. -/
theorem bfs_dfs_terminate {K : Type} [LinearOrderedField K] (gc : K → K → K → K → K)
    (g : Graph K) (s e : NodeId) (hwf : WFGraph g) :
    (∀ fuel, (nodeIds g).length + 2 ≤ fuel → bfs_solve gc g s e fuel ≠ .error .fuel) ∧
    (∀ fuel, dfsMeasure g [] + 2 ≤ fuel → dfs_solve gc g s e fuel ≠ .error .fuel) := by
  constructor
  · intro fuel hf
    unfold bfs_solve
    apply bfsLoop_ne_fuel gc g e hwf.2 fuel [s] [s] [] []
    · refine ⟨by simp, ?_, ?_, by simp⟩
      · intro x hx
        simpa using hx
      · intro kv hkv
        exact absurd hkv (List.not_mem_nil kv)
    · have hcle := List.countP_le_length (l := nodeIds g) (p := fun x => decide (x ∉ [s]))
      simp only [List.length_cons, List.length_nil]
      omega
  · intro fuel hf
    unfold dfs_solve
    apply dfsLoop_ne_fuel gc g e hwf.1 hwf.2 fuel [s] [] [] []
    · exact ⟨List.nodup_nil, by simp, by simp,
        fun kv hkv => absurd hkv (List.not_mem_nil kv), by simp⟩
    · simp only [List.length_cons, List.length_nil]
      omega

/-- Witness for C9 on the concrete cyclic-free five-node graph (the bound
machinery applies to any well-formed graph, cycles included). -/
theorem bfs_dfs_terminate_witness :
    WFGraph (gTie ℚ) ∧
    ((nodeIds (gTie ℚ)).length + 2 ≤ 20 ∧
      bfs_solve taxicab (gTie ℚ) 0 4 20 ≠ .error .fuel) ∧
    (dfsMeasure (gTie ℚ) [] + 2 ≤ 20 ∧
      dfs_solve taxicab (gTie ℚ) 0 4 20 ≠ .error .fuel) :=
  ⟨by decide,
   ⟨by decide, (bfs_dfs_terminate taxicab (gTie ℚ) 0 4 (by decide)).1 20 (by decide)⟩,
   ⟨by decide, (bfs_dfs_terminate taxicab (gTie ℚ) 0 4 (by decide)).2 20 (by decide)⟩⟩

/-! ## Values of the real great-circle function on equator points -/

lemma gc_equator (a b : ℝ) :
    great_circle 0 a 0 b =
      2 * 6371009 * Real.arcsin |Real.sin ((b - a) * (Real.pi / 180) / 2)| := by
  unfold great_circle
  simp only [zero_mul, sub_zero, Real.sin_zero, Real.cos_zero, one_mul, zero_div,
    ne_eq, OfNat.ofNat_ne_zero, not_false_eq_true, zero_pow, zero_add]
  rw [min_eq_right (Real.sin_sq_le_one _), Real.sqrt_sq_eq_abs, ← sub_mul]

lemma gc_equator_zero (a : ℝ) : great_circle 0 a 0 a = 0 := by
  rw [gc_equator]
  simp

lemma gc_equator_90 (a b : ℝ) (h : b - a = 90 ∨ b - a = -90) :
    great_circle 0 a 0 b = 6371009 * (Real.pi / 2) := by
  rw [gc_equator]
  have harc : Real.arcsin |Real.sin ((b - a) * (Real.pi / 180) / 2)| = Real.pi / 4 := by
    have habs : |Real.sin ((b - a) * (Real.pi / 180) / 2)| = Real.sin (Real.pi / 4) := by
      rcases h with h | h <;> rw [h]
      · rw [show (90 : ℝ) * (Real.pi / 180) / 2 = Real.pi / 4 by ring]
        exact abs_of_nonneg (Real.sin_nonneg_of_nonneg_of_le_pi
          (by positivity) (by linarith [Real.pi_pos]))
      · rw [show (-90 : ℝ) * (Real.pi / 180) / 2 = -(Real.pi / 4) by ring, Real.sin_neg,
          abs_neg]
        exact abs_of_nonneg (Real.sin_nonneg_of_nonneg_of_le_pi
          (by positivity) (by linarith [Real.pi_pos]))
    rw [habs, Real.arcsin_sin (by linarith [Real.pi_pos]) (by linarith [Real.pi_pos])]
  rw [harc]
  ring

lemma gc_equator_180 (a b : ℝ) (h : b - a = 180 ∨ b - a = -180) :
    great_circle 0 a 0 b = 6371009 * Real.pi := by
  rw [gc_equator]
  have habs : |Real.sin ((b - a) * (Real.pi / 180) / 2)| = 1 := by
    rcases h with h | h <;> rw [h]
    · rw [show (180 : ℝ) * (Real.pi / 180) / 2 = Real.pi / 2 by ring, Real.sin_pi_div_two]
      exact abs_one
    · rw [show (-180 : ℝ) * (Real.pi / 180) / 2 = -(Real.pi / 2) by ring, Real.sin_neg,
        Real.sin_pi_div_two, abs_neg, abs_one]
  rw [habs, Real.arcsin_one]
  ring

/-! ## Parametric evaluation of the comparison on `gRun2` (C2) -/

lemma run2_astar_param {K : Type} [LinearOrderedField K] (gc : K → K → K → K → K) (c : K)
    (h1 : gc 0 0 0 180 = c) (h2 : gc 0 180 0 180 = 0) :
    a_star_solve gc (gRun2 K) 0 1 10 = .ok ([0, 1], c, [0, 1]) := by
  simp only [a_star_solve, heuristic, nodeDist, getData, gRun2, mapGet?]
  norm_num [h1]
  rw [show (10 : Nat) = 9 + 1 from rfl, aStarLoop]
  norm_num [popMin, mapGet?, neighbors, neighborsList, firstDedup, outTargets, nodeIds,
    gRun2, aStarRelax, edgeLen, lenOf, ltOpt, mapSet, heappush, lexLt, heuristic,
    nodeDist, getData, h2]
  rw [show (9 : Nat) = 8 + 1 from rfl, aStarLoop]
  norm_num [popMin, mapGet?, lexLt, finishAt, reconstruct_path, rpLoop,
    calculate_path_distance, calcPairs, nodeDist, getData, gRun2, h1, h2]

lemma run2_dijkstra_param {K : Type} [LinearOrderedField K] (gc : K → K → K → K → K)
    (c : K) (h1 : gc 0 0 0 180 = c) :
    dijkstra_solve gc (gRun2 K) 0 1 10 = .ok ([0, 1], c, [0, 1]) := by
  simp only [dijkstra_solve]
  rw [show (10 : Nat) = 9 + 1 from rfl, dijkstraLoop]
  norm_num [popMin, staleOpt, mapGet?, neighbors, neighborsList, firstDedup, outTargets,
    nodeIds, gRun2, dijRelax, edgeLen, lenOf, ltOpt, mapSet, heappush, lexLt]
  rw [show (9 : Nat) = 8 + 1 from rfl, dijkstraLoop]
  norm_num [popMin, staleOpt, mapGet?, lexLt, finishAt, reconstruct_path, rpLoop,
    calculate_path_distance, calcPairs, nodeDist, getData, gRun2, h1]

lemma run2_greedy_param {K : Type} [LinearOrderedField K] (gc : K → K → K → K → K) (c : K)
    (h1 : gc 0 0 0 180 = c) (h2 : gc 0 180 0 180 = 0) :
    greedy_bfs_solve gc (gRun2 K) 0 1 10 = .ok ([0, 1], c, [0, 1]) := by
  simp only [greedy_bfs_solve, heuristic, nodeDist, getData, gRun2, mapGet?]
  norm_num [h1]
  rw [show (10 : Nat) = 9 + 1 from rfl, greedyLoop]
  norm_num [popMin, mapGet?, neighbors, neighborsList, firstDedup, outTargets, nodeIds,
    gRun2, greedyRelax, mapSet, heappush, lexLt, heuristic, nodeDist, getData, h2]
  rw [show (9 : Nat) = 8 + 1 from rfl, greedyLoop]
  norm_num [popMin, mapGet?, lexLt, finishAt, reconstruct_path, rpLoop,
    calculate_path_distance, calcPairs, nodeDist, getData, gRun2, h1, h2]

lemma run2_bfs_param {K : Type} [LinearOrderedField K] (gc : K → K → K → K → K) (c : K)
    (h1 : gc 0 0 0 180 = c) :
    bfs_solve gc (gRun2 K) 0 1 10 = .ok ([0, 1], c, [0, 1]) := by
  simp only [bfs_solve]
  rw [show (10 : Nat) = 9 + 1 from rfl, bfsLoop]
  norm_num [neighbors, neighborsList, firstDedup, outTargets, nodeIds, gRun2, bfsEnqueue,
    mapSet]
  rw [show (9 : Nat) = 8 + 1 from rfl, bfsLoop]
  norm_num [finishAt, reconstruct_path, rpLoop, mapGet?, calculate_path_distance,
    calcPairs, nodeDist, getData, gRun2, h1]

lemma run2_dfs_param {K : Type} [LinearOrderedField K] (gc : K → K → K → K → K) (c : K)
    (h1 : gc 0 0 0 180 = c) :
    dfs_solve gc (gRun2 K) 0 1 10 = .ok ([0, 1], c, [0, 1]) := by
  simp only [dfs_solve]
  rw [show (10 : Nat) = 9 + 1 from rfl, dfsLoop]
  norm_num [neighbors, neighborsList, firstDedup, outTargets, nodeIds, gRun2, dfsPushList,
    mapSet]
  rw [show (9 : Nat) = 8 + 1 from rfl, dfsLoop]
  norm_num [finishAt, reconstruct_path, rpLoop, mapGet?, calculate_path_distance,
    calcPairs, nodeDist, getData, gRun2, h1]

set_option maxHeartbeats 1000000 in
lemma run2_compare_param {K : Type} [LinearOrderedField K] [FloorRing K]
    (gc : K → K → K → K → K) (c : K) (h1 : gc 0 0 0 180 = c) (h2 : gc 0 180 0 180 = 0)
    (hc : 0 < c) :
    compare_core gc (gRun2 K) 0 1 10 (fun _ => 0) =
      .ok ⟨[⟨"A* (A-Star)", roundTo2 (c / 1000), 0, 2⟩,
            ⟨"Dijkstra", roundTo2 (c / 1000), 0, 2⟩,
            ⟨"Greedy BFS", roundTo2 (c / 1000), 0, 2⟩,
            ⟨"BFS", roundTo2 (c / 1000), 0, 2⟩,
            ⟨"DFS", roundTo2 (c / 1000), 0, 2⟩],
           some ⟨((0, 180), (0, 0)), [(0, 0), (0, 180)], [(0, 0), (0, 180)]⟩,
           some "A* (A-Star)"⟩ := by
  have hrun : runAll gc (gRun2 K) 0 1 10 (fun _ => 0) =
      .ok [("A* (A-Star)", ([0, 1], c, [0, 1]), 0), ("Dijkstra", ([0, 1], c, [0, 1]), 0),
           ("Greedy BFS", ([0, 1], c, [0, 1]), 0), ("BFS", ([0, 1], c, [0, 1]), 0),
           ("DFS", ([0, 1], c, [0, 1]), 0)] := by
    simp only [runAll, run2_astar_param gc c h1 h2, run2_dijkstra_param gc c h1,
      run2_greedy_param gc c h1 h2, run2_bfs_param gc c h1, run2_dfs_param gc c h1,
      ok_bind]
  rw [compare_core_ok gc (gRun2 K) 0 1 10 (fun _ => 0) _ hrun]
  norm_num [selectLoop, selectStep, trustedNames, ltOpt, hc, fastestOf, extremaBounds,
    minList, maxList, coordPair, getData, gRun2, mapGet?, roundTo2, roundHalfEven]

/-- Upper bound for Python's banker rounding. -/
lemma roundHalfEven_le_add_one {K : Type} [LinearOrderedField K] [FloorRing K] (x : K) :
    (roundHalfEven x : K) ≤ x + 1 := by
  unfold roundHalfEven
  have hfl := Int.floor_le x
  split_ifs with hh1 hh2 hh3
  · linarith
  · push_cast
    linarith
  · linarith
  · push_cast
    linarith

/-- C2 counterexample: on the real program (real great-circle metric, two
equator nodes 180 degrees apart) every solver's accumulator distance is
6371009·π meters, but the reported entry distance is `round(d/1000, 2)` —
kilometers rounded to two decimals — which is strictly smaller than the
accumulator's value in meters. -/
theorem reported_distance_not_meters :
    compare_core great_circle (gRun2 ℝ) 0 1 10 (fun _ => 0) =
      .ok ⟨[⟨"A* (A-Star)", roundTo2 (6371009 * Real.pi / 1000), 0, 2⟩,
            ⟨"Dijkstra", roundTo2 (6371009 * Real.pi / 1000), 0, 2⟩,
            ⟨"Greedy BFS", roundTo2 (6371009 * Real.pi / 1000), 0, 2⟩,
            ⟨"BFS", roundTo2 (6371009 * Real.pi / 1000), 0, 2⟩,
            ⟨"DFS", roundTo2 (6371009 * Real.pi / 1000), 0, 2⟩],
           some ⟨((0, 180), (0, 0)), [(0, 0), (0, 180)], [(0, 0), (0, 180)]⟩,
           some "A* (A-Star)"⟩ ∧
    calculate_path_distance great_circle (gRun2 ℝ) [0, 1] = .ok (6371009 * Real.pi) ∧
    roundTo2 (6371009 * Real.pi / 1000) ≠ 6371009 * Real.pi := by
  have h1 : great_circle 0 0 0 180 = 6371009 * Real.pi :=
    gc_equator_180 0 180 (Or.inl (by norm_num))
  have h2 : great_circle 0 180 0 180 = 0 := gc_equator_zero 180
  have hc : (0 : ℝ) < 6371009 * Real.pi := by positivity
  refine ⟨run2_compare_param great_circle _ h1 h2 hc, ?_, ?_⟩
  · simp [calculate_path_distance, calcPairs, nodeDist, getData, gRun2, mapGet?, h1]
  · have hb := roundHalfEven_le_add_one (K := ℝ) (6371009 * Real.pi / 1000 * 100)
    have hpi := Real.pi_gt_three
    refine ne_of_lt ?_
    rw [roundTo2]
    linarith

/-- C2 (amended): every entry of the result list comes from a solver run with
a nonempty path, and its reported distance field is `round(d/1000, 2)` — the
accumulator's distance converted to kilometers and rounded to two decimals,
not the distance in meters. -/
theorem reported_distance_is_rounded_km {K : Type} [LinearOrderedField K] [FloorRing K]
    (gc : K → K → K → K → K) (g : Graph K) (s e : NodeId) (fuel : Nat) (tm : Nat → K)
    (ts : List (String × SolveOut K × K)) (r : Report K)
    (hrun : runAll gc g s e fuel tm = .ok ts)
    (hcmp : compare_core gc g s e fuel tm = .ok r) :
    ∀ a ∈ r.results, ∃ t ∈ ts, t.2.1.1 ≠ [] ∧ a = mkEntry t ∧
      a.distance = roundTo2 (t.2.1.2.1 / 1000) := by
  rw [compare_core_ok gc g s e fuel tm ts hrun] at hcmp
  rw [← Except.ok.inj hcmp]
  intro a ha
  simp only [selectLoop_results ts ⟨[], [], none, []⟩, List.nil_append] at ha
  obtain ⟨t, htf, rfl⟩ := List.mem_map.1 ha
  obtain ⟨ht, hne⟩ := List.mem_filter.1 htf
  refine ⟨t, ht, ?_, rfl, rfl⟩
  intro hemp
  rw [hemp] at hne
  simp at hne

/-- Witness for the amended C2 at the concrete comparison on `gRun2 ℚ`: the
A* entry reports `round(180/1000, 2) = 0.18`, produced from its solver run. -/
theorem reported_distance_is_rounded_km_witness :
    (⟨"A* (A-Star)", 9 / 50, 0, 2⟩ : AlgoResult ℚ) ∈ rRun2.results ∧
    ∃ t ∈ tsRun2, t.2.1.1 ≠ [] ∧ (⟨"A* (A-Star)", 9 / 50, 0, 2⟩ : AlgoResult ℚ) = mkEntry t ∧
      (⟨"A* (A-Star)", 9 / 50, 0, 2⟩ : AlgoResult ℚ).distance = roundTo2 (t.2.1.2.1 / 1000) := by
  have hmem : (⟨"A* (A-Star)", 9 / 50, 0, 2⟩ : AlgoResult ℚ) ∈ rRun2.results := by
    rw [rRun2]
    exact List.mem_cons_self _ _
  exact ⟨hmem, reported_distance_is_rounded_km taxicab (gRun2 ℚ) 0 1 10 (fun _ => 0)
    tsRun2 rRun2 gRun2_runAll gRun2_compare _ hmem⟩

/-! ## Parametric evaluation of A* and Dijkstra on `gTie` (C6) -/

set_option maxHeartbeats 2000000 in
lemma tie_astar_param {K : Type} [LinearOrderedField K] (gc : K → K → K → K → K) (c : K)
    (hA : gc 0 0 0 180 = c) (hB : gc 0 90 0 180 = c / 2) (hC : gc 0 0 0 90 = c / 2)
    (hE : gc 0 180 0 180 = 0) (hc : (20 : K) < c) :
    a_star_solve gc (gTie K) 0 4 20 = .ok ([0, 1, 4], c, [0, 2, 1, 4]) := by
  have k1 : ¬ (10 + c / 2 < 1 + c / 2) := by linarith
  have k2 : ¬ (10 + c / 2 = 1 + c / 2) := by intro h; linarith
  have k3 : 10 + c / 2 < 2 + c := by linarith
  have k4 : ¬ ((2 : K) + c < 20) := by linarith
  have k5 : ¬ ((2 : K) + c = 20) := by intro h; linarith
  simp only [a_star_solve, heuristic, nodeDist, getData, gTie, mapGet?]
  norm_num [hA]
  rw [show (20 : Nat) = 19 + 1 from rfl, aStarLoop]
  norm_num [popMin, mapGet?, neighbors, neighborsList, firstDedup, outTargets, nodeIds,
    gTie, aStarRelax, edgeLen, lenOf, ltOpt, mapSet, heappush, lexLt, heuristic,
    nodeDist, getData, hB]
  rw [show (19 : Nat) = 18 + 1 from rfl, aStarLoop]
  norm_num [popMin, mapGet?, neighbors, neighborsList, firstDedup, outTargets, nodeIds,
    gTie, aStarRelax, edgeLen, lenOf, ltOpt, mapSet, heappush, lexLt, heuristic,
    nodeDist, getData, hA, k1, k2]
  rw [show (18 : Nat) = 17 + 1 from rfl, aStarLoop]
  norm_num [popMin, mapGet?, neighbors, neighborsList, firstDedup, outTargets, nodeIds,
    gTie, aStarRelax, edgeLen, lenOf, ltOpt, mapSet, heappush, lexLt, heuristic,
    nodeDist, getData, hE, k3]
  rw [show (17 : Nat) = 16 + 1 from rfl, aStarLoop]
  norm_num [popMin, mapGet?, lexLt, k4, k5, finishAt, reconstruct_path, rpLoop,
    calculate_path_distance, calcPairs, nodeDist, getData, gTie, hB, hC]

set_option maxHeartbeats 2000000 in
lemma tie_dijkstra_param {K : Type} [LinearOrderedField K] (gc : K → K → K → K → K) (c : K)
    (hA : gc 0 0 0 180 = c) (hC : gc 0 0 0 90 = c / 2) (hD : gc 0 90 0 0 = c / 2) :
    dijkstra_solve gc (gTie K) 0 4 20 = .ok ([0, 2, 3, 4], 2 * c, [0, 2, 3, 4]) := by
  simp only [dijkstra_solve]
  rw [show (20 : Nat) = 19 + 1 from rfl, dijkstraLoop]
  norm_num [popMin, staleOpt, mapGet?, neighbors, neighborsList, firstDedup, outTargets,
    nodeIds, gTie, dijRelax, edgeLen, lenOf, ltOpt, mapSet, heappush, lexLt]
  rw [show (19 : Nat) = 18 + 1 from rfl, dijkstraLoop]
  norm_num [popMin, staleOpt, mapGet?, neighbors, neighborsList, firstDedup, outTargets,
    nodeIds, gTie, dijRelax, edgeLen, lenOf, ltOpt, mapSet, heappush, lexLt]
  rw [show (18 : Nat) = 17 + 1 from rfl, dijkstraLoop]
  norm_num [popMin, staleOpt, mapGet?, neighbors, neighborsList, firstDedup, outTargets,
    nodeIds, gTie, dijRelax, edgeLen, lenOf, ltOpt, mapSet, heappush, lexLt]
  rw [show (17 : Nat) = 16 + 1 from rfl, dijkstraLoop]
  norm_num [popMin, staleOpt, mapGet?, lexLt, finishAt, reconstruct_path, rpLoop,
    calculate_path_distance, calcPairs, nodeDist, getData, gTie, hA, hC, hD]
  ring

/-- C6 counterexample: on the real program (real great-circle metric), graph
`gTie` with start 0 and end 4: both searches find a path, but A* (steered by
the inadmissible great-circle heuristic over the unit-free stored lengths)
returns the geographically direct route 0→1→4 with reported distance
6371009·π, while Dijkstra returns the cheapest stored-length route 0→2→3→4,
which doubles back geographically and reports 2·6371009·π.  The two reported
distances differ although the edge weights are non-negative. -/
theorem astar_dijkstra_distances_differ :
    a_star_solve great_circle (gTie ℝ) 0 4 20 =
      .ok ([0, 1, 4], 6371009 * Real.pi, [0, 2, 1, 4]) ∧
    dijkstra_solve great_circle (gTie ℝ) 0 4 20 =
      .ok ([0, 2, 3, 4], 2 * (6371009 * Real.pi), [0, 2, 3, 4]) ∧
    ([0, 1, 4] : List NodeId) ≠ [] ∧ ([0, 2, 3, 4] : List NodeId) ≠ [] ∧
    NonnegWeights (gTie ℝ) ∧
    (6371009 * Real.pi : ℝ) ≠ 2 * (6371009 * Real.pi) := by
  have hA : great_circle 0 0 0 180 = 6371009 * Real.pi :=
    gc_equator_180 0 180 (Or.inl (by norm_num))
  have hB : great_circle 0 90 0 180 = 6371009 * Real.pi / 2 := by
    rw [gc_equator_90 90 180 (Or.inl (by norm_num))]; ring
  have hC : great_circle 0 0 0 90 = 6371009 * Real.pi / 2 := by
    rw [gc_equator_90 0 90 (Or.inl (by norm_num))]; ring
  have hD : great_circle 0 90 0 0 = 6371009 * Real.pi / 2 := by
    rw [gc_equator_90 90 0 (Or.inr (by norm_num))]; ring
  have hE : great_circle 0 180 0 180 = 0 := gc_equator_zero 180
  have hc : (20 : ℝ) < 6371009 * Real.pi := by
    have := Real.pi_gt_three
    linarith
  refine ⟨tie_astar_param great_circle _ hA hB hC hE hc,
    tie_dijkstra_param great_circle _ hA hC hD, by simp, by simp, ?_, ?_⟩
  · intro e he
    fin_cases he <;> norm_num
  · have hpos : (0 : ℝ) < 6371009 * Real.pi := by positivity
    intro h
    linarith

/-! ## Every solver reports the great-circle distance of its own path (C6 amended) -/

lemma aStarLoop_dist {K : Type} [LinearOrderedField K] (gc : K → K → K → K → K)
    (g : Graph K) (e : NodeId) :
    ∀ (fuel : Nat) (pq : List (K × NodeId)) (gS : List (NodeId × K))
      (cf : List (NodeId × NodeId)) (vis : List NodeId) (out : SolveOut K),
      aStarLoop gc g e fuel pq gS cf vis = .ok out →
      calculate_path_distance gc g out.1 = .ok out.2.1 := by
  intro fuel
  induction fuel with
  | zero => intro pq gS cf vis out h; exact absurd h (by simp [aStarLoop])
  | succ f ih =>
    intro pq gS cf vis out h
    rw [aStarLoop] at h
    cases hpop : popMin pq with
    | none =>
      rw [hpop] at h
      obtain rfl : (([], 0, vis) : SolveOut K) = out := Except.ok.inj h
      rfl
    | some pr =>
      obtain ⟨⟨d, cur⟩, pq'⟩ := pr
      rw [hpop] at h
      dsimp only at h
      by_cases hv : cur ∈ vis
      · rw [if_pos hv] at h
        exact ih _ _ _ _ _ h
      · rw [if_neg hv] at h
        by_cases hcur : cur = e
        · rw [if_pos hcur] at h
          unfold finishAt at h
          cases hrp : reconstruct_path cf cur with
          | none => rw [hrp] at h; exact absurd h (by simp)
          | some path =>
            rw [hrp] at h
            dsimp only at h
            cases hcd : calculate_path_distance gc g path with
            | error pe => rw [hcd] at h; exact absurd h (by simp)
            | ok dv =>
              rw [hcd] at h
              simp only [ok_bind] at h
              obtain rfl : ((path, dv, vis ++ [cur]) : SolveOut K) = out := Except.ok.inj h
              exact hcd
        · rw [if_neg hcur] at h
          cases hns : neighbors g cur with
          | error pe => rw [hns] at h; exact absurd h (by simp)
          | ok ns =>
            rw [hns] at h
            simp only [ok_bind] at h
            cases hrel : aStarRelax gc g e cur ns pq' gS cf with
            | error pe => rw [hrel] at h; exact absurd h (by simp)
            | ok st =>
              rw [hrel] at h
              simp only [ok_bind] at h
              obtain ⟨pq'', gS', cf'⟩ := st
              exact ih _ _ _ _ _ h

lemma dijkstraLoop_dist {K : Type} [LinearOrderedField K] (gc : K → K → K → K → K)
    (g : Graph K) (e : NodeId) :
    ∀ (fuel : Nat) (pq : List (K × NodeId)) (cf : List (NodeId × NodeId))
      (dM : List (NodeId × K)) (vis : List NodeId) (out : SolveOut K),
      dijkstraLoop gc g e fuel pq cf dM vis = .ok out →
      calculate_path_distance gc g out.1 = .ok out.2.1 := by
  intro fuel
  induction fuel with
  | zero => intro pq cf dM vis out h; exact absurd h (by simp [dijkstraLoop])
  | succ f ih =>
    intro pq cf dM vis out h
    rw [dijkstraLoop] at h
    cases hpop : popMin pq with
    | none =>
      rw [hpop] at h
      obtain rfl : (([], 0, vis) : SolveOut K) = out := Except.ok.inj h
      rfl
    | some pr =>
      obtain ⟨⟨d, cur⟩, pq'⟩ := pr
      rw [hpop] at h
      dsimp only at h
      by_cases hst : staleOpt d (mapGet? dM cur)
      · rw [if_pos hst] at h
        exact ih _ _ _ _ _ h
      · rw [if_neg hst] at h
        by_cases hcur : cur = e
        · rw [if_pos hcur] at h
          unfold finishAt at h
          cases hrp : reconstruct_path cf cur with
          | none => rw [hrp] at h; exact absurd h (by simp)
          | some path =>
            rw [hrp] at h
            dsimp only at h
            cases hcd : calculate_path_distance gc g path with
            | error pe => rw [hcd] at h; exact absurd h (by simp)
            | ok dv =>
              rw [hcd] at h
              simp only [ok_bind] at h
              obtain rfl : ((path, dv, vis ++ [cur]) : SolveOut K) = out := Except.ok.inj h
              exact hcd
        · rw [if_neg hcur] at h
          cases hns : neighbors g cur with
          | error pe => rw [hns] at h; exact absurd h (by simp)
          | ok ns =>
            rw [hns] at h
            simp only [ok_bind] at h
            exact ih _ _ _ _ _ h

/-- C6 (amended): the uniform-cost and informed searches each report the
great-circle length of their OWN returned path; since the two searches can
return different paths (the heuristic is metric distance while the search
cost is the stored edge length), the two reported distances need not agree
even when both find a path and all edge weights are non-negative. -/
theorem solver_reports_own_path_distance {K : Type} [LinearOrderedField K]
    (gc : K → K → K → K → K) (g : Graph K) (s e : NodeId) (fuel : Nat) (out : SolveOut K) :
    (a_star_solve gc g s e fuel = .ok out →
      calculate_path_distance gc g out.1 = .ok out.2.1) ∧
    (dijkstra_solve gc g s e fuel = .ok out →
      calculate_path_distance gc g out.1 = .ok out.2.1) := by
  constructor
  · intro h
    unfold a_star_solve at h
    cases hh : heuristic gc g s e with
    | error pe => rw [hh] at h; exact absurd h (by simp)
    | ok hv =>
      rw [hh] at h
      simp only [ok_bind] at h
      exact aStarLoop_dist gc g e fuel _ _ _ _ out h
  · intro h
    exact dijkstraLoop_dist gc g e fuel _ _ _ _ out h

/-- Witness for the amended C6 at the concrete `gTie ℚ` runs. -/
theorem solver_reports_own_path_distance_witness :
    a_star_solve taxicab (gTie ℚ) 0 4 20 = .ok ([0, 1, 4], 180, [0, 2, 1, 4]) ∧
    calculate_path_distance taxicab (gTie ℚ) [0, 1, 4] = .ok 180 ∧
    dijkstra_solve taxicab (gTie ℚ) 0 4 20 = .ok ([0, 2, 3, 4], 360, [0, 2, 3, 4]) ∧
    calculate_path_distance taxicab (gTie ℚ) [0, 2, 3, 4] = .ok 360 := by
  have hA : taxicab 0 0 0 180 = 180 := by norm_num [taxicab]
  have hB : taxicab 0 90 0 180 = 180 / 2 := by norm_num [taxicab]
  have hC : taxicab 0 0 0 90 = 180 / 2 := by norm_num [taxicab]
  have hD : taxicab 0 90 0 0 = 180 / 2 := by norm_num [taxicab]
  have hE : taxicab 0 180 0 180 = 0 := by norm_num [taxicab]
  have ha := tie_astar_param taxicab 180 hA hB hC hE (by norm_num)
  have hd : dijkstra_solve taxicab (gTie ℚ) 0 4 20 = .ok ([0, 2, 3, 4], 360, [0, 2, 3, 4]) := by
    rw [tie_dijkstra_param taxicab 180 hA hC hD]
    norm_num
  exact ⟨ha, (solver_reports_own_path_distance taxicab (gTie ℚ) 0 4 20 _).1 ha, hd,
    (solver_reports_own_path_distance taxicab (gTie ℚ) 0 4 20 _).2 hd⟩

/-! ## C10 machinery -/

lemma finishAt_ok {K : Type} [LinearOrderedField K] {gc : K → K → K → K → K} {g : Graph K}
    {cf : List (NodeId × NodeId)} {cur : NodeId} {vis : List NodeId} {out : SolveOut K}
    (h : finishAt gc g cf cur vis = .ok out) : out.2.2 = vis := by
  unfold finishAt at h
  cases hrp : reconstruct_path cf cur with
  | none => rw [hrp] at h; exact absurd h (by simp)
  | some path =>
    rw [hrp] at h
    dsimp only at h
    cases hcd : calculate_path_distance gc g path with
    | error pe => rw [hcd] at h; exact absurd h (by simp)
    | ok dv =>
      rw [hcd] at h
      simp only [ok_bind] at h
      obtain rfl : ((path, dv, vis) : SolveOut K) = out := Except.ok.inj h
      rfl

lemma popMin_eq_nil {K : Type} [LinearOrderedField K] :
    ∀ (pq : List (K × NodeId)), popMin pq = none → pq = [] := by
  intro pq h
  cases pq with
  | nil => rfl
  | cons x xs =>
    rw [popMin] at h
    cases hm : popMin xs with
    | none => rw [hm] at h; exact absurd h (by simp)
    | some pr =>
      obtain ⟨m, rest⟩ := pr
      rw [hm] at h
      dsimp only at h
      by_cases hlt : lexLt m x
      · rw [if_pos hlt] at h
        exact absurd h (by simp)
      · rw [if_neg hlt] at h
        exact absurd h (by simp)

lemma popMin_perm {K : Type} [LinearOrderedField K] :
    ∀ (pq : List (K × NodeId)) (p : K × NodeId) (rest : List (K × NodeId)),
      popMin pq = some (p, rest) → pq.Perm (p :: rest) := by
  intro pq
  induction pq with
  | nil => intro p rest h; exact absurd h (by simp [popMin])
  | cons x xs ih =>
    intro p rest h
    rw [popMin] at h
    cases hm : popMin xs with
    | none =>
      rw [hm] at h
      dsimp only at h
      obtain rfl := popMin_eq_nil xs hm
      have hinj := Option.some.inj h
      have hp : p = x := (congrArg Prod.fst hinj).symm
      have hr : rest = [] := (congrArg Prod.snd hinj).symm
      rw [hp, hr]
    | some pr =>
      obtain ⟨m, rest'⟩ := pr
      rw [hm] at h
      dsimp only at h
      by_cases hlt : lexLt m x
      · rw [if_pos hlt] at h
        have hinj := Option.some.inj h
        have hp : p = m := (congrArg Prod.fst hinj).symm
        have hr : rest = x :: rest' := (congrArg Prod.snd hinj).symm
        rw [hp, hr]
        exact ((ih m rest' hm).cons x).trans (List.Perm.swap m x rest')
      · rw [if_neg hlt] at h
        have hinj := Option.some.inj h
        have hp : p = x := (congrArg Prod.fst hinj).symm
        have hr : rest = xs := (congrArg Prod.snd hinj).symm
        rw [hp, hr]

lemma popMin_le {K : Type} [LinearOrderedField K] :
    ∀ (pq : List (K × NodeId)) (p : K × NodeId) (rest : List (K × NodeId)),
      popMin pq = some (p, rest) → ∀ q ∈ pq, p.1 ≤ q.1 := by
  intro pq
  induction pq with
  | nil => intro p rest h; exact absurd h (by simp [popMin])
  | cons x xs ih =>
    intro p rest h q hq
    rw [popMin] at h
    cases hm : popMin xs with
    | none =>
      rw [hm] at h
      dsimp only at h
      obtain rfl := popMin_eq_nil xs hm
      have hp : p = x := (congrArg Prod.fst (Option.some.inj h)).symm
      have hqx : q = x := by simpa using hq
      rw [hp, hqx]
    | some pr =>
      obtain ⟨m, rest'⟩ := pr
      rw [hm] at h
      dsimp only at h
      by_cases hlt : lexLt m x
      · rw [if_pos hlt] at h
        have hp : p = m := (congrArg Prod.fst (Option.some.inj h)).symm
        rw [hp]
        rcases List.mem_cons.1 hq with rfl | hq'
        · rcases hlt with h1 | ⟨h1, _⟩
          · exact le_of_lt h1
          · exact le_of_eq h1
        · exact ih m rest' hm q hq'
      · rw [if_neg hlt] at h
        have hp : p = x := (congrArg Prod.fst (Option.some.inj h)).symm
        rw [hp]
        rcases List.mem_cons.1 hq with rfl | hq'
        · exact le_refl _
        · have hpm : x.1 ≤ m.1 := by
            by_contra hc
            exact hlt (Or.inl (lt_of_not_le hc))
          exact le_trans hpm (ih m rest' hm q hq')

lemma mapGet?_mapSet_self {V : Type} (m : List (NodeId × V)) (k : NodeId) (v : V) :
    mapGet? (mapSet m k v) k = some v := by
  simp [mapSet, mapGet?]

lemma mapGet?_mapSet_ne {V : Type} (m : List (NodeId × V)) (k k' : NodeId) (v : V)
    (h : k ≠ k') : mapGet? (mapSet m k v) k' = mapGet? m k' := by
  simp [mapSet, mapGet?, h]

lemma lenOf_mem {K : Type} :
    ∀ (es : List (NodeId × NodeId × Option K)) (u v : NodeId) (l : Option K),
      lenOf es u v = some l → ∃ e ∈ es, e.2.2 = l := by
  intro es u v
  induction es with
  | nil => intro l h; exact absurd h (by simp [lenOf])
  | cons e rest ih =>
    intro l h
    rw [lenOf] at h
    by_cases he : e.1 = u ∧ e.2.1 = v
    · rw [if_pos he] at h
      exact ⟨e, List.mem_cons_self e rest, Option.some.inj h⟩
    · rw [if_neg he] at h
      obtain ⟨e', he', hl⟩ := ih l h
      exact ⟨e', List.mem_cons_of_mem e he', hl⟩

lemma edgeLen_nonneg {K : Type} [LinearOrderedField K] {g : Graph K}
    (hw : NonnegWeights g) (u v : NodeId) : 0 ≤ edgeLen g u v := by
  unfold edgeLen
  cases hl : lenOf g.edges u v with
  | none => exact zero_le_one
  | some l =>
    obtain ⟨e, he, hel⟩ := lenOf_mem g.edges u v l hl
    rw [← hel]
    exact hw e he

lemma aStarLoop_vis_nodup {K : Type} [LinearOrderedField K] (gc : K → K → K → K → K)
    (g : Graph K) (e : NodeId) :
    ∀ (fuel : Nat) (pq : List (K × NodeId)) (gS : List (NodeId × K))
      (cf : List (NodeId × NodeId)) (vis : List NodeId) (out : SolveOut K),
      vis.Nodup → aStarLoop gc g e fuel pq gS cf vis = .ok out → out.2.2.Nodup := by
  intro fuel
  induction fuel with
  | zero => intro pq gS cf vis out _ h; exact absurd h (by simp [aStarLoop])
  | succ f ih =>
    intro pq gS cf vis out hnd h
    rw [aStarLoop] at h
    cases hpop : popMin pq with
    | none =>
      rw [hpop] at h
      obtain rfl : (([], 0, vis) : SolveOut K) = out := Except.ok.inj h
      exact hnd
    | some pr =>
      obtain ⟨⟨d, cur⟩, pq'⟩ := pr
      rw [hpop] at h
      dsimp only at h
      by_cases hv : cur ∈ vis
      · rw [if_pos hv] at h
        exact ih pq' gS cf vis out hnd h
      · rw [if_neg hv] at h
        have hnd' : (vis ++ [cur]).Nodup := by
          rw [List.nodup_append]
          exact ⟨hnd, List.nodup_singleton cur,
            fun a ha hacur => hv ((List.mem_singleton.1 hacur) ▸ ha)⟩
        by_cases hce : cur = e
        · rw [if_pos hce] at h
          rw [finishAt_ok h]
          exact hnd'
        · rw [if_neg hce] at h
          cases hns : neighbors g cur with
          | error pe => rw [hns] at h; exact absurd h (by simp)
          | ok ns =>
            rw [hns] at h
            simp only [ok_bind] at h
            cases hrel : aStarRelax gc g e cur ns pq' gS cf with
            | error pe => rw [hrel] at h; exact absurd h (by simp)
            | ok st =>
              rw [hrel] at h
              simp only [ok_bind] at h
              obtain ⟨pq'', gS', cf'⟩ := st
              exact ih pq'' gS' cf' (vis ++ [cur]) out hnd' h

lemma greedyLoop_order_nodup {K : Type} [LinearOrderedField K] (gc : K → K → K → K → K)
    (g : Graph K) (e : NodeId) :
    ∀ (fuel : Nat) (pq : List (K × NodeId)) (cf : List (NodeId × NodeId))
      (vs order : List NodeId) (out : SolveOut K),
      order.Nodup → greedyLoop gc g e fuel pq cf vs order = .ok out → out.2.2.Nodup := by
  intro fuel
  induction fuel with
  | zero => intro pq cf vs order out _ h; exact absurd h (by simp [greedyLoop])
  | succ f ih =>
    intro pq cf vs order out hnd h
    rw [greedyLoop] at h
    cases hpop : popMin pq with
    | none =>
      rw [hpop] at h
      obtain rfl : (([], 0, order) : SolveOut K) = out := Except.ok.inj h
      exact hnd
    | some pr =>
      obtain ⟨⟨d, cur⟩, pq'⟩ := pr
      rw [hpop] at h
      dsimp only at h
      by_cases hv : cur ∈ order
      · rw [if_pos hv] at h
        exact ih pq' cf vs order out hnd h
      · rw [if_neg hv] at h
        have hnd' : (order ++ [cur]).Nodup := by
          rw [List.nodup_append]
          exact ⟨hnd, List.nodup_singleton cur,
            fun a ha hacur => hv ((List.mem_singleton.1 hacur) ▸ ha)⟩
        by_cases hce : cur = e
        · rw [if_pos hce] at h
          rw [finishAt_ok h]
          exact hnd'
        · rw [if_neg hce] at h
          cases hns : neighbors g cur with
          | error pe => rw [hns] at h; exact absurd h (by simp)
          | ok ns =>
            rw [hns] at h
            simp only [ok_bind] at h
            cases hrel : greedyRelax gc g e cur ns pq' vs cf with
            | error pe => rw [hrel] at h; exact absurd h (by simp)
            | ok st =>
              rw [hrel] at h
              simp only [ok_bind] at h
              obtain ⟨pq'', vs', cf'⟩ := st
              exact ih pq'' cf' vs' (order ++ [cur]) out hnd' h

lemma dfsLoop_order_nodup {K : Type} [LinearOrderedField K] (gc : K → K → K → K → K)
    (g : Graph K) (e : NodeId) :
    ∀ (fuel : Nat) (st vs : List NodeId) (cf : List (NodeId × NodeId))
      (order : List NodeId) (out : SolveOut K),
      order.Nodup → (∀ x ∈ order, x ∈ vs) →
      dfsLoop gc g e fuel st vs cf order = .ok out → out.2.2.Nodup := by
  intro fuel
  induction fuel with
  | zero => intro st vs cf order out _ _ h; exact absurd h (by simp [dfsLoop])
  | succ f ih =>
    intro st vs cf order out hnd hov h
    cases st with
    | nil =>
      rw [dfsLoop] at h
      obtain rfl : (([], 0, order) : SolveOut K) = out := Except.ok.inj h
      exact hnd
    | cons cur rest =>
      rw [dfsLoop] at h
      by_cases hv : cur ∈ vs
      · rw [if_pos hv] at h
        exact ih rest vs cf order out hnd hov h
      · rw [if_neg hv] at h
        dsimp only at h
        have hco : cur ∉ order := fun hc => hv (hov cur hc)
        have hnd' : (order ++ [cur]).Nodup := by
          rw [List.nodup_append]
          exact ⟨hnd, List.nodup_singleton cur,
            fun a ha hacur => hco ((List.mem_singleton.1 hacur) ▸ ha)⟩
        have hov' : ∀ x ∈ order ++ [cur], x ∈ vs ++ [cur] := by
          intro x hx
          rcases List.mem_append.1 hx with h1 | h2
          · exact List.mem_append_left _ (hov x h1)
          · exact List.mem_append_right _ h2
        by_cases hce : cur = e
        · rw [if_pos hce] at h
          rw [finishAt_ok h]
          exact hnd'
        · rw [if_neg hce] at h
          cases hns : neighbors g cur with
          | error pe => rw [hns] at h; exact absurd h (by simp)
          | ok ns =>
            rw [hns] at h
            simp only [ok_bind] at h
            exact ih _ (vs ++ [cur]) _ (order ++ [cur]) out hnd' hov' h

lemma bfsLoop_order_nodup {K : Type} [LinearOrderedField K] (gc : K → K → K → K → K)
    (g : Graph K) (e : NodeId)
    (hwf : ∀ eg ∈ g.edges, eg.1 ∈ nodeIds g ∧ eg.2.1 ∈ nodeIds g) :
    ∀ (fuel : Nat) (q vs : List NodeId) (cf : List (NodeId × NodeId))
      (order : List NodeId) (out : SolveOut K),
      BfsInv g q vs cf order →
      bfsLoop gc g e fuel q vs cf order = .ok out → out.2.2.Nodup := by
  intro fuel
  induction fuel with
  | zero => intro q vs cf order out _ h; exact absurd h (by simp [bfsLoop])
  | succ f ih =>
    intro q vs cf order out hinv h
    cases q with
    | nil =>
      rw [bfsLoop] at h
      obtain rfl : (([], 0, order) : SolveOut K) = out := Except.ok.inj h
      have hnd := hinv.1
      rw [List.append_nil] at hnd
      exact hnd
    | cons cur rest =>
      obtain ⟨hnd, hmem, hres, hlen⟩ := hinv
      rw [bfsLoop] at h
      dsimp only at h
      have hre : order ++ cur :: rest = (order ++ [cur]) ++ rest := by simp
      by_cases hce : cur = e
      · rw [if_pos hce] at h
        rw [finishAt_ok h]
        have hsl : (order ++ [cur]).Sublist (order ++ cur :: rest) :=
          ((List.nil_sublist rest).cons₂ cur).append_left order
        exact List.Nodup.sublist hsl hnd
      · rw [if_neg hce] at h
        cases hns : neighbors g cur with
        | error pe => rw [hns] at h; exact absurd h (by simp)
        | ok ns =>
          rw [hns] at h
          simp only [ok_bind] at h
          obtain ⟨hcurid, hnseq⟩ := neighbors_ok hns
          have hinv' : BfsInv g rest vs cf (order ++ [cur]) := by
            refine ⟨?_, ?_, ?_, ?_⟩ <;> rw [← hre]
            exacts [hnd, hmem, hres, hlen]
          have hspec := bfsEnqueue_spec g cur ns rest vs cf (order ++ [cur]) hinv'
            (List.mem_append_right _ (List.mem_singleton.2 rfl))
            (fun m hm' => neighborsList_subset g hwf cur m (hnseq ▸ hm'))
          set r := bfsEnqueue cur ns rest vs cf with hr
          exact ih r.1 r.2.1 r.2.2 (order ++ [cur]) out hspec.1 h

lemma dijRelax_inv {K : Type} [LinearOrderedField K] {g : Graph K} (hw : NonnegWeights g)
    (cur : NodeId) (d : K) (vl : List NodeId) :
    ∀ (ns : List NodeId) (pq : List (K × NodeId)) (dM : List (NodeId × K))
      (cf : List (NodeId × NodeId)),
      pq.Nodup →
      (∀ p ∈ pq, ∃ dn, mapGet? dM p.2 = some dn ∧ dn ≤ p.1) →
      (∀ p ∈ pq, d ≤ p.1) →
      (∀ n ∈ vl, ∃ dn, mapGet? dM n = some dn ∧ dn ≤ d) →
      (∀ n ∈ vl, ∀ p ∈ pq, p.2 = n → ∃ dn, mapGet? dM n = some dn ∧ dn < p.1) →
      (dijRelax g cur d ns pq dM cf).1.Nodup ∧
      (∀ p ∈ (dijRelax g cur d ns pq dM cf).1,
        ∃ dn, mapGet? (dijRelax g cur d ns pq dM cf).2.1 p.2 = some dn ∧ dn ≤ p.1) ∧
      (∀ p ∈ (dijRelax g cur d ns pq dM cf).1, d ≤ p.1) ∧
      (∀ n ∈ vl, ∃ dn, mapGet? (dijRelax g cur d ns pq dM cf).2.1 n = some dn ∧ dn ≤ d) ∧
      (∀ n ∈ vl, ∀ p ∈ (dijRelax g cur d ns pq dM cf).1, p.2 = n →
        ∃ dn, mapGet? (dijRelax g cur d ns pq dM cf).2.1 n = some dn ∧ dn < p.1) := by
  intro ns
  induction ns with
  | nil =>
    intro pq dM cf h1 h2 h3 h4 h5
    rw [dijRelax]
    exact ⟨h1, h2, h3, h4, h5⟩
  | cons n ns ih =>
    intro pq dM cf h1 h2 h3 h4 h5
    rw [dijRelax]
    by_cases hg : ltOpt (d + edgeLen g cur n) (mapGet? dM n)
    · rw [if_pos hg]
      have hwn : (0 : K) ≤ edgeLen g cur n := edgeLen_nonneg hw cur n
      have hdnd : d ≤ d + edgeLen g cur n := by linarith
      have hnvl : n ∉ vl := by
        intro hn
        obtain ⟨dn, hdn, hdnle⟩ := h4 n hn
        rw [hdn] at hg
        have hglt : d + edgeLen g cur n < dn := hg
        linarith
      have hold : ∀ p ∈ pq, p.2 = n → d + edgeLen g cur n < p.1 := by
        intro p hp hpn
        obtain ⟨dn, hdn, hdnle⟩ := h2 p hp
        rw [hpn] at hdn
        rw [hdn] at hg
        have hglt : d + edgeLen g cur n < dn := hg
        linarith
      have hnotin : (d + edgeLen g cur n, n) ∉ pq := fun hmem =>
        lt_irrefl _ (hold (d + edgeLen g cur n, n) hmem rfl)
      apply ih (heappush pq (d + edgeLen g cur n, n))
        (mapSet dM n (d + edgeLen g cur n)) (mapSet cf n cur)
      · rw [heappush]
        exact List.nodup_cons.2 ⟨hnotin, h1⟩
      · intro p hp
        rw [heappush] at hp
        rcases List.mem_cons.1 hp with rfl | hp'
        · exact ⟨d + edgeLen g cur n, mapGet?_mapSet_self dM n _, le_refl _⟩
        · by_cases hpn : p.2 = n
          · rw [hpn, mapGet?_mapSet_self]
            exact ⟨d + edgeLen g cur n, rfl, le_of_lt (hold p hp' hpn)⟩
          · rw [mapGet?_mapSet_ne dM n p.2 _ (Ne.symm hpn)]
            exact h2 p hp'
      · intro p hp
        rw [heappush] at hp
        rcases List.mem_cons.1 hp with rfl | hp'
        · exact hdnd
        · exact h3 p hp'
      · intro m hm
        have hne : n ≠ m := fun he' => hnvl (by rw [he']; exact hm)
        rw [mapGet?_mapSet_ne dM n m _ hne]
        exact h4 m hm
      · intro m hm p hp hpm
        have hne : n ≠ m := fun he' => hnvl (by rw [he']; exact hm)
        rw [heappush] at hp
        rcases List.mem_cons.1 hp with rfl | hp'
        · have hnm : n = m := hpm
          exact absurd hnm hne
        · rw [mapGet?_mapSet_ne dM n m _ hne]
          exact h5 m hm p hp' hpm
    · rw [if_neg hg]
      exact ih pq dM cf h1 h2 h3 h4 h5

lemma dijkstraLoop_vis_nodup {K : Type} [LinearOrderedField K] (gc : K → K → K → K → K)
    (g : Graph K) (e : NodeId) (hw : NonnegWeights g) :
    ∀ (fuel : Nat) (pq : List (K × NodeId)) (cf : List (NodeId × NodeId))
      (dM : List (NodeId × K)) (vis : List NodeId) (out : SolveOut K),
      pq.Nodup →
      (∀ p ∈ pq, ∃ dn, mapGet? dM p.2 = some dn ∧ dn ≤ p.1) →
      (∀ n ∈ vis, ∀ p ∈ pq, ∃ dn, mapGet? dM n = some dn ∧ dn ≤ p.1) →
      (∀ n ∈ vis, ∀ p ∈ pq, p.2 = n → ∃ dn, mapGet? dM n = some dn ∧ dn < p.1) →
      vis.Nodup →
      dijkstraLoop gc g e fuel pq cf dM vis = .ok out → out.2.2.Nodup := by
  intro fuel
  induction fuel with
  | zero => intro pq cf dM vis out _ _ _ _ _ h; exact absurd h (by simp [dijkstraLoop])
  | succ f ih =>
    intro pq cf dM vis out h1 h2 h3 h4 hnd h
    rw [dijkstraLoop] at h
    cases hpop : popMin pq with
    | none =>
      rw [hpop] at h
      obtain rfl : (([], 0, vis) : SolveOut K) = out := Except.ok.inj h
      exact hnd
    | some pr =>
      obtain ⟨⟨d, cur⟩, pq'⟩ := pr
      rw [hpop] at h
      dsimp only at h
      have hperm := popMin_perm pq (d, cur) pq' hpop
      have hmeml : (d, cur) ∈ pq := hperm.mem_iff.2 (List.mem_cons_self _ _)
      have hsub : ∀ p ∈ pq', p ∈ pq := fun p hp =>
        hperm.mem_iff.2 (List.mem_cons_of_mem _ hp)
      have hconsnd : ((d, cur) :: pq').Nodup := hperm.nodup_iff.mp h1
      have hpq'nd : pq'.Nodup := (List.nodup_cons.1 hconsnd).2
      have hdcnotin : (d, cur) ∉ pq' := (List.nodup_cons.1 hconsnd).1
      have hmin := popMin_le pq (d, cur) pq' hpop
      by_cases hst : staleOpt d (mapGet? dM cur)
      · rw [if_pos hst] at h
        exact ih pq' cf dM vis out hpq'nd (fun p hp => h2 p (hsub p hp))
          (fun n hn p hp => h3 n hn p (hsub p hp))
          (fun n hn p hp hpn => h4 n hn p (hsub p hp) hpn) hnd h
      · rw [if_neg hst] at h
        obtain ⟨dc, hdc, hdcle⟩ := h2 (d, cur) hmeml
        have hdcle' : dc ≤ d := hdcle
        have hdeq : dc = d := by
          rw [hdc] at hst
          have hnlt : ¬ dc < d := hst
          linarith
        have hcurnv : cur ∉ vis := by
          intro hcv
          obtain ⟨dn, hdn, hdnlt⟩ := h4 cur hcv (d, cur) hmeml rfl
          rw [hdc] at hdn
          have hdndc : dn = dc := (Option.some.inj hdn).symm
          have hdnlt' : dn < d := hdnlt
          linarith
        have hvnd' : (vis ++ [cur]).Nodup := by
          rw [List.nodup_append]
          exact ⟨hnd, List.nodup_singleton cur,
            fun a ha hacur => hcurnv ((List.mem_singleton.1 hacur) ▸ ha)⟩
        by_cases hce : cur = e
        · rw [if_pos hce] at h
          rw [finishAt_ok h]
          exact hvnd'
        · rw [if_neg hce] at h
          cases hns : neighbors g cur with
          | error pe => rw [hns] at h; exact absurd h (by simp)
          | ok ns =>
            rw [hns] at h
            simp only [ok_bind] at h
            have hvl4 : ∀ m ∈ vis ++ [cur], ∃ dn, mapGet? dM m = some dn ∧ dn ≤ d := by
              intro m hm
              rcases List.mem_append.1 hm with hmv | hmc
              · exact h3 m hmv (d, cur) hmeml
              · have hmc' : m = cur := List.mem_singleton.1 hmc
                rw [hmc']
                exact ⟨dc, hdc, le_of_eq hdeq⟩
            have hvl5 : ∀ m ∈ vis ++ [cur], ∀ p ∈ pq', p.2 = m →
                ∃ dn, mapGet? dM m = some dn ∧ dn < p.1 := by
              intro m hm p hp hpm
              rcases List.mem_append.1 hm with hmv | hmc
              · exact h4 m hmv p (hsub p hp) hpm
              · have hmc' : m = cur := List.mem_singleton.1 hmc
                rw [hmc']
                refine ⟨dc, hdc, ?_⟩
                rw [hdeq]
                rcases lt_or_eq_of_le (hmin p (hsub p hp)) with hlt | heq'
                · exact hlt
                · exfalso
                  apply hdcnotin
                  have hp2 : p.2 = cur := by rw [hpm, hmc']
                  have hpeq : p = (d, cur) := Prod.ext heq'.symm hp2
                  rw [← hpeq]
                  exact hp
            have hrelax := dijRelax_inv hw cur d (vis ++ [cur]) ns pq' dM cf hpq'nd
              (fun p hp => h2 p (hsub p hp)) (fun p hp => hmin p (hsub p hp)) hvl4 hvl5
            exact ih (dijRelax g cur d ns pq' dM cf).1 (dijRelax g cur d ns pq' dM cf).2.2
              (dijRelax g cur d ns pq' dM cf).2.1 (vis ++ [cur]) out hrelax.1 hrelax.2.1
              (fun m hm p hp =>
                (hrelax.2.2.2.1 m hm).imp fun dn hdn =>
                  ⟨hdn.1, le_trans hdn.2 (hrelax.2.2.1 p hp)⟩)
              hrelax.2.2.2.2 hvnd' h

/-- C10: on a well-formed graph with non-negative edge weights, the
visited-node order returned by each of the five solvers lists each node at
most once, even though a node may be enqueued or pushed onto the frontier
multiple times. -/
theorem visited_orders_nodup {K : Type} [LinearOrderedField K] (gc : K → K → K → K → K)
    (g : Graph K) (s e : NodeId) (fuel : Nat) (out : SolveOut K)
    (hwf : WFGraph g) (hw : NonnegWeights g) :
    (a_star_solve gc g s e fuel = .ok out → out.2.2.Nodup) ∧
    (dijkstra_solve gc g s e fuel = .ok out → out.2.2.Nodup) ∧
    (greedy_bfs_solve gc g s e fuel = .ok out → out.2.2.Nodup) ∧
    (bfs_solve gc g s e fuel = .ok out → out.2.2.Nodup) ∧
    (dfs_solve gc g s e fuel = .ok out → out.2.2.Nodup) := by
  refine ⟨?_, ?_, ?_, ?_, ?_⟩
  · intro h
    unfold a_star_solve at h
    cases hh : heuristic gc g s e with
    | error pe => rw [hh] at h; exact absurd h (by simp)
    | ok hv =>
      rw [hh] at h
      simp only [ok_bind] at h
      exact aStarLoop_vis_nodup gc g e fuel [(hv, s)] [(s, 0)] [] [] out List.nodup_nil h
  · intro h
    unfold dijkstra_solve at h
    refine dijkstraLoop_vis_nodup gc g e hw fuel [(0, s)] [] [(s, 0)] [] out
      (List.nodup_singleton _) ?_ ?_ ?_ List.nodup_nil h
    · intro p hp
      have hps : p = ((0 : K), s) := by simpa using hp
      rw [hps]
      exact ⟨0, by simp [mapGet?], le_refl 0⟩
    · intro n hn
      exact absurd hn (List.not_mem_nil n)
    · intro n hn
      exact absurd hn (List.not_mem_nil n)
  · intro h
    unfold greedy_bfs_solve at h
    cases hh : heuristic gc g s e with
    | error pe => rw [hh] at h; exact absurd h (by simp)
    | ok hv =>
      rw [hh] at h
      simp only [ok_bind] at h
      exact greedyLoop_order_nodup gc g e fuel [(hv, s)] [] [s] [] out List.nodup_nil h
  · intro h
    unfold bfs_solve at h
    refine bfsLoop_order_nodup gc g e hwf.2 fuel [s] [s] [] [] out ?_ h
    refine ⟨by simp, ?_, ?_, by simp⟩
    · intro x hx
      simpa using hx
    · intro kv hkv
      exact absurd hkv (List.not_mem_nil kv)
  · intro h
    unfold dfs_solve at h
    exact dfsLoop_order_nodup gc g e fuel [s] [] [] [] out List.nodup_nil
      (fun x hx => absurd hx (List.not_mem_nil x)) h

/-- Witness for C10 at the concrete Dijkstra run on `gTie ℚ`. -/
theorem visited_orders_nodup_witness :
    WFGraph (gTie ℚ) ∧ NonnegWeights (gTie ℚ) ∧
    (dijkstra_solve taxicab (gTie ℚ) 0 4 20 = .ok ([0, 2, 3, 4], 360, [0, 2, 3, 4]) →
      ([0, 2, 3, 4] : List NodeId).Nodup) :=
  ⟨by decide,
   by
     intro eg heg
     fin_cases heg <;> norm_num,
   (visited_orders_nodup taxicab (gTie ℚ) 0 4 20 ([0, 2, 3, 4], 360, [0, 2, 3, 4])
      (by decide)
      (by
        intro eg heg
        fin_cases heg <;> norm_num)).2.1⟩

end PathSim
